import Mathlib

/-!
# Bezier grinding-trajectory library: embedding and checked properties

Shallow embedding of `bezier_library.cpp`.

Conventions of the embedding

* Scalars (`double`) are the elements of a linearly ordered field `K` with a
  floor function: arithmetic is exact.  The square root of `libm` is a
  parameter `sqrt : K → K`; the theorems that need it to be an exact root say
  so through `IsSqrt`.
* A vector whose components are NaN is `none` in `NVec K`.  NaN only enters
  through `Eigen::normalize` of the zero vector (0/0 in each component) and
  then spreads to every component of what is computed from it; a comparison
  with a NaN operand is false.
* VTK and PCL filters are the fields of `Env`.
* A call that does not return normally yields `none`: an access through a
  null pointer or at index -1, a reversed iterator range given to a vector
  (`std::length_error`), an integer division by zero, a loop that has not
  ended within its fuel.  A read one element past the end of a line and a
  conversion of an out-of-range double to `unsigned int` yield a value that
  is a field of `Env`.
* Sizes and indices are natural numbers; the conversions between `int`,
  `unsigned int` and `size_t` are exact below 2^31, and the two places where
  an unsigned difference wraps are modelled (`lastIndex`, `regenerate`).
* The narrowing of a double to `float` in `lineOrganizerStruct` is the field
  `toFloat` of `Env`; in the finiteness test of `generateRobotPoses` it is
  taken as exact.
-/

namespace Bezier

/-! ## Vectors -/

/-- An `Eigen::Vector3d` with finite components. -/
@[ext]
structure Vec3 (K : Type) where
  x : K
  y : K
  z : K
deriving DecidableEq

/-- An `Eigen::Vector3d` that may hold NaN in its components (`none`). -/
abbrev NVec (K : Type) := Option (Vec3 K)

namespace Vec3

variable {K : Type} [LinearOrderedField K]

/-- The vector `Eigen::Vector3d::Zero()`. -/
def zero : Vec3 K := ⟨0, 0, 0⟩

/-- Sum of two vectors. -/
def add (a b : Vec3 K) : Vec3 K := ⟨a.x + b.x, a.y + b.y, a.z + b.z⟩

/-- Difference of two vectors. -/
def sub (a b : Vec3 K) : Vec3 K := ⟨a.x - b.x, a.y - b.y, a.z - b.z⟩

/-- Product of a scalar and a vector. -/
def smul (c : K) (a : Vec3 K) : Vec3 K := ⟨c * a.x, c * a.y, c * a.z⟩

/-- Scalar product, `a.dot(b)`. -/
def dot (a b : Vec3 K) : K := a.x * b.x + a.y * b.y + a.z * b.z

/-- Vector product, `a.cross(b)`. -/
def cross (a b : Vec3 K) : Vec3 K :=
  ⟨a.y * b.z - a.z * b.y, a.z * b.x - a.x * b.z, a.x * b.y - a.y * b.x⟩

/-- Squared distance, `vtkMath::Distance2BetweenPoints`. -/
def dist2 (a b : Vec3 K) : K := dot (sub a b) (sub a b)

/-- Euclidean norm, `v.norm()`. -/
def norm (sqrt : K → K) (v : Vec3 K) : K := sqrt (dot v v)

/-- In-place `v.normalize()`: every component is divided by the norm; a zero
norm leaves 0/0 = NaN in every component. -/
def normalize (sqrt : K → K) (v : Vec3 K) : NVec K :=
  if norm sqrt v = 0 then none
  else some ⟨v.x / norm sqrt v, v.y / norm sqrt v, v.z / norm sqrt v⟩

end Vec3

namespace NVec

variable {K : Type} [LinearOrderedField K]

/-- Sum, NaN if an operand is. -/
def add (a b : NVec K) : NVec K :=
  match a, b with
  | some u, some v => some (Vec3.add u v)
  | _, _ => none

/-- Difference, NaN if an operand is. -/
def sub (a b : NVec K) : NVec K :=
  match a, b with
  | some u, some v => some (Vec3.sub u v)
  | _, _ => none

/-- Product with a finite scalar. -/
def smul (c : K) (a : NVec K) : NVec K := a.map (Vec3.smul c)

/-- Product with a scalar that may be NaN. -/
def smulN (c : Option K) (a : NVec K) : NVec K :=
  match c, a with
  | some k, some v => some (Vec3.smul k v)
  | _, _ => none

/-- Scalar product; the result is NaN (`none`) if an operand is. -/
def dot (a b : NVec K) : Option K :=
  match a, b with
  | some u, some v => some (Vec3.dot u v)
  | _, _ => none

/-- Vector product, NaN if an operand is. -/
def cross (a b : NVec K) : NVec K :=
  match a, b with
  | some u, some v => some (Vec3.cross u v)
  | _, _ => none

/-- Squared distance; NaN (`none`) if an operand is. -/
def dist2 (a b : NVec K) : Option K :=
  match a, b with
  | some u, some v => some (Vec3.dist2 u v)
  | _, _ => none

/-- In-place `normalize()` of a vector that may already hold NaN. -/
def normalize (sqrt : K → K) (a : NVec K) : NVec K := a.bind (Vec3.normalize sqrt)

end NVec

/-- Comparison `a < b` of two doubles, false when an operand is NaN. -/
def ltN {K : Type} [LinearOrderedField K] (a b : Option K) : Bool :=
  match a, b with
  | some u, some v => decide (u < v)
  | _, _ => false

/-- The `libm` square root is exact: the non-negative root of its argument. -/
def IsSqrt {K : Type} [LinearOrderedField K] (sqrt : K → K) : Prop :=
  ∀ x : K, 0 ≤ x → 0 ≤ sqrt x ∧ sqrt x * sqrt x = x

/-- The constant `DBL_MAX`, the largest finite double,
`(2^53 - 1) * 2^971 = 2^1024 - 2^971`. -/
def DBL_MAX {K : Type} [LinearOrderedField K] : K := ((2 ^ 1024 - 2 ^ 971 : ℕ) : K)

/-- The constant `DBL_MIN`, the smallest positive normal double, `2^-1022`. -/
def DBL_MIN {K : Type} [LinearOrderedField K] : K := 1 / ((2 ^ 1022 : ℕ) : K)

/-! ## Poses and the frame of a pose -/

/-- An `Eigen::Affine3d`: the translation and the three columns of the linear
part.  Translations are only ever written from finite points. -/
structure Pose (K : Type) where
  translation : Vec3 K
  col0 : NVec K
  col1 : NVec K
  col2 : NVec K
deriving DecidableEq

/-- The pose `Eigen::Affine3d::Identity()`. -/
def Pose.identity {K : Type} [LinearOrderedField K] : Pose K :=
  ⟨⟨0, 0, 0⟩, some ⟨1, 0, 0⟩, some ⟨0, 1, 0⟩, some ⟨0, 0, 1⟩⟩

variable {K : Type} [LinearOrderedField K]

/-- `Bezier::generateRobotPoses`: the returned flag and the pose argument after
the call.  The finiteness test is made on the components of `normal_y`. -/
def generateRobotPoses (sqrt : K → K) (point point_next normal : Vec3 K) (pose : Pose K) :
    Bool × Pose K :=
  let normal_z := normal
  let normal_x := Vec3.sub point_next point
  if normal_x = Vec3.zero then (false, pose)
  else
    let normal_y := Vec3.cross normal_z normal_x
    let nx := Vec3.normalize sqrt normal_x
    let ny := Vec3.normalize sqrt normal_y
    let nz := Vec3.normalize sqrt normal_z
    if ny.isNone then (false, pose)
    else (true, { translation := point, col0 := nx, col1 := ny, col2 := nz })

/-! ## Meshes, strips and the external filters -/

/-- A `vtkPolyData`: the point array, the point-data normals when the array
is present, and every cell as the coordinates of its points (a coordinate
triple that is not finite is `none`). -/
structure PolyData (K : Type) where
  points : List (Vec3 K)
  normals : Option (List (Vec3 K))
  cells : List (List (NVec K))
deriving DecidableEq

/-- The empty data set of `vtkSmartPointer<vtkPolyData>::New()`. -/
def PolyData.empty {K : Type} : PolyData K := ⟨[], none, []⟩

/-- A polyline of the library: points with their normals,
`std::vector<std::pair<Vector3d, Vector3d>>`. -/
abbrev Line (K : Type) := List (Vec3 K × Vec3 K)

/-- Output of a `vtkStripper`: whether the point data carries a normal
array, and the line cells, each point resolved to its coordinates and normal
tuple. -/
structure Stripper (K : Type) where
  hasNormals : Bool
  lines : List (Line K)
deriving DecidableEq

/-- Output of a stripper that has not been updated: no cell. -/
def Stripper.empty {K : Type} : Stripper K := ⟨false, []⟩

/-- The external collaborators of the library (VTK, PCL, `libm`) and the
values the language leaves undefined. -/
structure Env (K : Type) where
  /-- The square root of `libm`. -/
  sqrt : K → K
  /-- Output of `vtkPolyDataNormals` with point normals on. -/
  pointNormals : PolyData K → PolyData K
  /-- Plane coefficients found by `pcl::SACSegmentation`. -/
  ransac : PolyData K → Vec3 K
  /-- Corners `(min, max)` of `GetBounds()`. -/
  bounds : PolyData K → Vec3 K × Vec3 K
  /-- Result of `GetCenter()`. -/
  center : PolyData K → Vec3 K
  /-- Output of `vtkImplicitModeller` followed by `vtkMarchingCubes` on a
  mesh, for an adjust distance, a maximum distance and a contour value. -/
  isoSurface : PolyData K → K → K → K → PolyData K
  /-- Parametric centre of a cell, `none` when not finite. -/
  cellCenter : List (NVec K) → NVec K
  /-- Output of `vtkCutter`, `vtkTriangleFilter` and `vtkStripper` for a mesh,
  a plane origin, a plane normal, a number of planes and the range of their
  offsets. -/
  cutter : PolyData K → Vec3 K → NVec K → Nat → K → K → Stripper K
  /-- What a read one element past the end of a line finds. -/
  pastEnd : Line K → NVec K × NVec K
  /-- What the conversion of `ceil(distance / diameter)` to `unsigned int`
  yields when that value is not in `[0, 2^32)`; the arguments are the distance
  and the diameter. -/
  toUnsigned : K → K → Nat
  /-- Conversion of a `double` to `float`, the narrowing that
  `lineOrganizerStruct` applies to both products before it compares them. -/
  toFloat : K → K

/-! ## Slicer -/

/-- Index of the sampled point of a strip in `getRealSliceNumber`:
`ceil(numberOfPoints / 2)` with an integer quotient, 0 for at most one point. -/
def midIndex (numberOfPoints : Nat) : Nat :=
  if numberOfPoints ≤ 1 then 0 else numberOfPoints / 2

/-- The erase loop of `getRealSliceNumber` from a position whose value is
`a`: the next value is erased while it is closer than `value`, otherwise the
position advances. -/
def collapseFrom (value : K) (a : K) : List K → List K
  | [] => [a]
  | b :: rest =>
    if |a - b| < value then collapseFrom value a rest
    else a :: collapseFrom value b rest

/-- The erase loop of `getRealSliceNumber` on the sorted vector. -/
def collapse (value : K) : List K → List K
  | [] => []
  | a :: rest => collapseFrom value a rest

/-- `Bezier::getRealSliceNumber` on the output of a stripper.  A strip
without points is not produced by `vtkStripper`; its sample is read as the
origin here.  With a NaN direction every product is NaN, no comparison
succeeds and nothing is erased. -/
def getRealSliceNumber (effector_diameter covering : K) (stripper : Stripper K)
    (vector_dir : NVec K) : Nat :=
  match vector_dir with
  | none => stripper.lines.length
  | some dir =>
    let dot_vector : List K := stripper.lines.map fun line =>
      Vec3.dot dir ((line.getD (midIndex line.length) (Vec3.zero, Vec3.zero)).1)
    if dot_vector.length = 0 then 0
    else
      let value := (effector_diameter * (1 - covering)) / (2 * 10)
      (collapse value (dot_vector.insertionSort (· ≤ ·))).length

/-- The `while` loop of `cutMesh` entered with `temp` extra planes; `fuel`
bounds the number of iterations. -/
def cutMeshLoop (env : Env K) (effector_diameter covering : K) (poly_data : PolyData K)
    (cut_dir : NVec K) (distanceMin distanceMax : K) (line_number_expected : Nat) :
    Nat → Nat → Option (Stripper K)
  | 0, _ => none
  | fuel + 1, temp =>
    let stripper := env.cutter poly_data (env.center poly_data) cut_dir
      (line_number_expected + temp) (-distanceMin) distanceMax
    let line_number_real := getRealSliceNumber effector_diameter covering stripper cut_dir
    if line_number_real < line_number_expected then
      cutMeshLoop env effector_diameter covering poly_data cut_dir distanceMin distanceMax
        line_number_expected fuel (temp + 1)
    else some stripper

/-- `Bezier::cutMesh`: the stripper after the call, `none` when the loop has
not ended within `fuel` iterations.  The loop is not entered when no line is
expected, and the stripper is then left as passed. -/
def cutMesh (env : Env K) (effector_diameter covering : K) (fuel : Nat)
    (poly_data : PolyData K) (cut_dir : NVec K) (line_number_expected : Nat)
    (stripper : Stripper K) : Option (Stripper K) :=
  let minBound := (env.bounds poly_data).1
  let maxBound := (env.bounds poly_data).2
  let center := env.center poly_data
  let distanceMin := env.sqrt (Vec3.dist2 minBound center)
  let distanceMax := env.sqrt (Vec3.dist2 maxBound center)
  let cut_dir := NVec.normalize env.sqrt cut_dir
  if 0 < line_number_expected then
    cutMeshLoop env effector_diameter covering poly_data cut_dir distanceMin distanceMax
      line_number_expected fuel 0
  else some stripper

/-- The strips `cutMesh` obtains at its retry number `temp`, that is with
`line_number_expected + temp` planes. -/
def cutAt (env : Env K) (poly_data : PolyData K) (cut_dir : NVec K)
    (line_number_expected temp : Nat) : Stripper K :=
  env.cutter poly_data (env.center poly_data) (NVec.normalize env.sqrt cut_dir)
    (line_number_expected + temp)
    (-(env.sqrt (Vec3.dist2 (env.bounds poly_data).1 (env.center poly_data))))
    (env.sqrt (Vec3.dist2 (env.bounds poly_data).2 (env.center poly_data)))

/-- The real line count `cutMesh` computes for a stripper. -/
def realCount (env : Env K) (effector_diameter covering : K) (cut_dir : NVec K)
    (stripper : Stripper K) : Nat :=
  getRealSliceNumber effector_diameter covering stripper (NVec.normalize env.sqrt cut_dir)

/-! ## Object state -/

/-- The data members of a `Bezier` object.  An entry of the pass stack
`dilationPolyDataVector_` carries the mesh and whether its pointer is the one
`inputPolyData_` holds (the test of `generateStripperOnSurface`). -/
structure State (K : Type) where
  grind_depth_ : K
  effector_diameter_ : K
  covering_ : K
  extrication_coefficiant_ : Int
  extrication_frequency_ : Int
  inputPolyData_ : PolyData K
  defaultPolyData_ : PolyData K
  dilationPolyDataVector_ : List (PolyData K × Bool)
  mesh_normal_vector_ : Vec3 K
  vector_dir_ : NVec K

/-- Comparison `a ≤ b` of two doubles, false when an operand is NaN. -/
def leN (a b : Option K) : Bool :=
  match a, b with
  | some u, some v => decide (u ≤ v)
  | _, _ => false

/-- Search of the nearest point of a point array from position `i`, the best
candidate so far being at `best` with squared distance `bestD`. -/
def closestFrom (q : Vec3 K) : List (Vec3 K) → Nat → Nat → K → Nat
  | [], _, best, _ => best
  | p :: rest, i, best, bestD =>
    if Vec3.dist2 q p < bestD then closestFrom q rest (i + 1) i (Vec3.dist2 q p)
    else closestFrom q rest (i + 1) best bestD

/-- Contract of `vtkKdTreePointLocator::FindClosestPoint`: the id of a nearest
point of the data set (id 0 for a query that is not finite).  Without points
there is no id and the access that follows does not return. -/
def findClosestPoint (points : List (Vec3 K)) (q : NVec K) : Option Nat :=
  match points, q with
  | [], _ => none
  | _ :: _, none => some 0
  | p :: rest, some v => some (closestFrom v rest 1 0 (Vec3.dist2 v p))

/-! ## Dilation and pruning -/

/-- The test of `dilatation` on one cell of the isosurface: `true` when the
cell is kept. -/
def dilatationKeeps (env : Env K) (input : PolyData K) (normals : List (Vec3 K))
    (cell : List (NVec K)) : Option Bool := do
  let cellCenter := env.cellCenter cell
  let iD ← findClosestPoint input.points cellCenter
  let closestPoint ← input.points.get? iD
  let direction_vector := NVec.sub cellCenter (some closestPoint)
  let normal ← normals.get? iD
  let direction_vector := NVec.normalize env.sqrt direction_vector
  let normal_vector := Vec3.normalize env.sqrt normal
  some (!(cellCenter.isNone || leN (NVec.dot normal_vector direction_vector) (some 0)))

/-- The cells a pruning loop keeps, in their order. -/
def keepCells (test : List (NVec K) → Option Bool) :
    List (List (NVec K)) → Option (List (List (NVec K)))
  | [] => some []
  | cell :: rest => do
    let keep ← test cell
    let others ← keepCells test rest
    some (if keep then cell :: others else others)

/-- `Bezier::dilatation`: the flag and the mesh written to `dilate_poly_data`
(the argument `poly_data` is not read).  The implicit modeller and the
marching cubes are `env.isoSurface`, set up from the depth and the longest
side of the bounds of the input mesh; for bounds without extent the quotient
is not finite in the source and is 0 here, and it only reaches that filter. -/
def dilatation (env : Env K) (st : State K) (depth : K) : Option (Bool × PolyData K) :=
  let bounds := env.bounds st.inputPolyData_
  let max_side_length :=
    max (max (bounds.2.x - bounds.1.x) (bounds.2.y - bounds.1.y)) (bounds.2.z - bounds.1.z)
  let threshold := depth / max_side_length
  let maximumDistance := if 2 * threshold > 1 then 1 else 2 * threshold
  let dilate_poly_data := env.isoSurface st.inputPolyData_ threshold maximumDistance depth
  match st.inputPolyData_.normals with
  | none => some (false, dilate_poly_data)
  | some normals => do
    let cells ← keepCells (dilatationKeeps env st.inputPolyData_ normals) dilate_poly_data.cells
    some (decide (cells.length ≠ 0), { dilate_poly_data with cells := cells })

/-- The test of `defaultIntersectionOptimisation` on the points of one cell,
in their order, up to the first point found inside. -/
def cellInside (env : Env K) (default : PolyData K) : List (NVec K) → Option Bool
  | [] => some false
  | pt :: rest => do
    let iD ← findClosestPoint default.points pt
    let closestPoint ← default.points.get? iD
    let direction_vector := NVec.sub (some closestPoint) pt
    let normals ← default.normals
    let normal ← normals.get? iD
    let direction_vector := NVec.normalize env.sqrt direction_vector
    let normal_vector := Vec3.normalize env.sqrt normal
    if pt.isSome && ltN (some (1 / 10)) (NVec.dot normal_vector direction_vector) then some true
    else cellInside env default rest

/-- `Bezier::defaultIntersectionOptimisation`: the flag and the mesh after
the call. -/
def defaultIntersectionOptimisation (env : Env K) (st : State K) (poly_data : PolyData K) :
    Option (Bool × PolyData K) := do
  let cells ← keepCells (cellInside env st.defaultPolyData_) poly_data.cells
  some (decide (cells.length ≠ 0), { poly_data with cells := cells })

/-- `Bezier::generateDirection`: the new value of `vector_dir_`. -/
def generateDirection (env : Env K) (mesh_normal_vector : Vec3 K) : NVec K :=
  let x_vector : Vec3 K := ⟨mesh_normal_vector.z, 0, -mesh_normal_vector.x⟩
  Vec3.normalize env.sqrt x_vector

/-! ## Line organiser -/

/-- The two comparisons of `determineSliceNumberExpected` for one point: the
pair `(min_value, max_value)` after the point. -/
def updateMinMax (vector_dir : NVec K) (acc : K × K) (point : NVec K) : K × K :=
  match NVec.dot point vector_dir with
  | none => acc
  | some value =>
    (if value < acc.1 then value else acc.1, if value > acc.2 then value else acc.2)

/-- `Bezier::determineSliceNumberExpected`. -/
def determineSliceNumberExpected [FloorRing K] (env : Env K) (st : State K)
    (poly_data : PolyData K) (vector_dir : NVec K) : Nat :=
  let init : K × K := (DBL_MAX, DBL_MIN)
  let minmax := poly_data.cells.foldl (fun acc cell => cell.foldl (updateMinMax vector_dir) acc) init
  let virtual_effector_diameter := st.effector_diameter_ * (1 - st.covering_)
  let distance := minmax.2 - minmax.1
  if virtual_effector_diameter = 0 then env.toUnsigned distance virtual_effector_diameter
  else
    let count : Int := Int.ceil (distance / virtual_effector_diameter)
    if 0 ≤ count ∧ count < 2 ^ 32 then count.toNat
    else env.toUnsigned distance virtual_effector_diameter

/-- The value `lineOrganizerStruct` compares lines by: the product of the
direction and the first point, narrowed to `float` (`float dist_a = ...`).
With a NaN direction no line compares below another; the key is then the same
for all. -/
def lineKey (env : Env K) (vector_dir : NVec K) (line : Line K) : K :=
  match vector_dir with
  | none => 0
  | some dir => env.toFloat (Vec3.dot dir (line.headD (Vec3.zero, Vec3.zero)).1)

/-- `Bezier::checkOrientation` on one line; no result for a line without
points (access at index -1). -/
def orientLine (env : Env K) (reference : NVec K) (line : Line K) : Option (Line K) := do
  let first ← line.head?
  let last ← line.getLast?
  let vector_orientation := Vec3.normalize env.sqrt (Vec3.sub last.1 first.1)
  if ltN (NVec.dot reference vector_orientation) (some 0) then some line.reverse
  else some line

/-- Runs a step that may fail over the lines, in order. -/
def forLines (step : Line K → Option (Line K)) : List (Line K) → Option (List (Line K))
  | [] => some []
  | line :: rest => do
    let line' ← step line
    let rest' ← forLines step rest
    some (line' :: rest')

/-- `Bezier::checkOrientation`. -/
def checkOrientation (env : Env K) (st : State K) (lines : List (Line K)) :
    Option (List (Line K)) :=
  let reference := NVec.normalize env.sqrt (NVec.cross st.vector_dir_ (some st.mesh_normal_vector_))
  forLines (orientLine env reference) lines

/-- The inner loop of `removeNearNeighborPoints` from `index_point` on a line
with at least one point; `fuel` bounds the iterations. -/
def removeNearLoop (env : Env K) : Nat → Nat → Line K → Line K
  | 0, _, line => line
  | fuel + 1, index_point, line =>
    if index_point + 1 < line.length then
      let point_vector := (line.getD index_point (Vec3.zero, Vec3.zero)).1
      let next_point_vector := (line.getD (index_point + 1) (Vec3.zero, Vec3.zero)).1
      if env.sqrt (Vec3.dist2 point_vector next_point_vector) < 1 / 1000 then
        if index_point + 2 < line.length then
          removeNearLoop env fuel (index_point + 1) (line.eraseIdx (index_point + 1))
        else removeNearLoop env fuel (index_point + 1) (line.eraseIdx index_point)
      else removeNearLoop env fuel (index_point + 1) line
    else line

/-- `Bezier::removeNearNeighborPoints` on one line.  On a line without
points the bound `size() - 1` wraps and the first read does not return. -/
def removeNearLine (env : Env K) (line : Line K) : Option (Line K) :=
  if line.length = 0 then none else some (removeNearLoop env line.length 0 line)

/-- `Bezier::removeNearNeighborPoints`. -/
def removeNearNeighborPoints (env : Env K) (lines : List (Line K)) : Option (List (Line K)) :=
  forLines (removeNearLine env) lines

/-- `Bezier::generateStripperOnSurface`: the flag and the vector `lines`
after the call; `isInput` is the outcome of `PolyData == inputPolyData_`.
The sort is stable here (`std::sort` leaves the order of equal keys open). -/
def generateStripperOnSurface [FloorRing K] (env : Env K) (st : State K) (fuel : Nat)
    (PolyData : PolyData K) (isInput : Bool) (lines : List (Line K)) :
    Option (Bool × List (Line K)) := do
  let slice_number_expected := determineSliceNumberExpected env st PolyData st.vector_dir_
  let stripper ← cutMesh env st.effector_diameter_ st.covering_ fuel PolyData st.vector_dir_
    slice_number_expected Stripper.empty
  if !stripper.hasNormals then some (false, lines)
  else
    let read : List (Line K) := stripper.lines.map fun cell =>
      cell.map fun pn => (pn.1, if isInput then Vec3.smul (-1) pn.2 else pn.2)
    let lines := lines ++ read
    let lines := lines.insertionSort fun a b =>
      lineKey env st.vector_dir_ a ≤ lineKey env st.vector_dir_ b
    let lines ← checkOrientation env st lines
    let lines ← removeNearNeighborPoints env lines
    some (true, lines)

/-! ## Nearest-index searches -/

/-- The loop shared by `seekClosestLine`, `seekClosestPoint` and
`seekClosestExtricationPassPoint`: position `i`, smallest squared distance so
far `distance`, its position `index`. -/
def seekLoop (point_vector : NVec K) : List (Vec3 K) → Nat → K → Nat → Nat
  | [], _, _, index => index
  | p :: rest, i, distance, index =>
    match NVec.dist2 point_vector (some p) with
    | none => seekLoop point_vector rest (i + 1) distance index
    | some d =>
      if distance > d then seekLoop point_vector rest (i + 1) d i
      else seekLoop point_vector rest (i + 1) distance index

/-- The last point of every line; no result if a line has no point. -/
def lastPoints : List (Line K) → Option (List (Vec3 K))
  | [] => some []
  | line :: rest => do
    let last ← line.getLast?
    let others ← lastPoints rest
    some (last.1 :: others)

/-- `Bezier::seekClosestLine`. -/
def seekClosestLine (point_vector : NVec K) (extrication_lines : List (Line K)) : Option Nat := do
  let ends ← lastPoints extrication_lines
  some (seekLoop point_vector ends 0 DBL_MAX 0)

/-- `Bezier::seekClosestPoint`. -/
def seekClosestPoint (point_vector : NVec K) (extrication_line : Line K) : Nat :=
  seekLoop point_vector (extrication_line.map Prod.fst) 0 DBL_MAX 0

/-- `Bezier::seekClosestExtricationPassPoint`. -/
def seekClosestExtricationPassPoint (point_vector : NVec K) (extrication_poses : List (Pose K)) :
    Nat :=
  seekLoop point_vector (extrication_poses.map Pose.translation) 0 DBL_MAX 0

/-! ## Planner -/

/-- The two pose outputs of `generateTrajectory`. -/
structure Traj (K : Type) where
  way_points_vector : List (Pose K)
  color_vector : List Bool
deriving DecidableEq

/-- Appends a pose and its colour flag. -/
def Traj.push (t : Traj K) (pose : Pose K) (color : Bool) : Traj K :=
  ⟨t.way_points_vector ++ [pose], t.color_vector ++ [color]⟩

/-- Variables of the loop over the points of a line. -/
structure LineVars (K : Type) where
  start_pose : Pose K
  end_pose : Pose K
  traj : Traj K

/-- One iteration of the loop over the points of a line with at least two
points. -/
def linePoint (env : Env K) (line : Line K) (v : LineVars K) (index_point : Nat) : LineVars K :=
  let at_ (i : Nat) : Vec3 K × Vec3 K := line.getD i (Vec3.zero, Vec3.zero)
  let r : Bool × Pose K :=
    if index_point < line.length - 1 then
      generateRobotPoses env.sqrt (at_ index_point).1 (at_ (index_point + 1)).1
        (at_ index_point).2 Pose.identity
    else
      let g := generateRobotPoses env.sqrt (at_ (index_point - 1)).1 (at_ index_point).1
        (at_ (index_point - 1)).2 Pose.identity
      (g.1, { g.2 with translation := (at_ index_point).1 })
  let flag_isFinite := r.1
  let pose := r.2
  let v1 : LineVars K :=
    if index_point = 0 then { v with start_pose := pose, traj := v.traj.push pose false } else v
  let v2 : LineVars K := if flag_isFinite then { v1 with traj := v1.traj.push pose true } else v1
  if index_point = line.length - 1 then { v2 with end_pose := pose, traj := v2.traj.push pose false }
  else v2

/-- The loop over the points of a line: it is left at once for a line with
fewer than two points. -/
def linePoses (env : Env K) (line : Line K) (traj : Traj K) : LineVars K :=
  let v : LineVars K := ⟨Pose.identity, Pose.identity, traj⟩
  if line.length < 2 then v
  else (List.range line.length).foldl (linePoint env line) v

/-- Extrication from the end of a line to the next line.  No result when
there is no extrication line (`extrication_lines[0]` on an empty vector) or
when the start index is past the end index (the vector `extrication_line` is
then built from a reversed iterator range). -/
def interLine (dist_to_extrication_mesh : K) (extrication_lines : List (Line K))
    (v : LineVars K) : Option (Traj K) := do
  let end_point := NVec.add (some v.end_pose.translation)
    (NVec.smul dist_to_extrication_mesh v.end_pose.col0)
  let dilated_end_point := NVec.sub (some v.end_pose.translation)
    (NVec.smul dist_to_extrication_mesh v.end_pose.col2)
  let dilated_start_point := NVec.sub (some v.start_pose.translation)
    (NVec.smul dist_to_extrication_mesh v.start_pose.col2)
  let index_of_closest_line ← seekClosestLine end_point extrication_lines
  let closest ← extrication_lines.get? index_of_closest_line
  let index_of_closest_end_point := seekClosestPoint dilated_end_point closest
  let index_of_closest_start_point := seekClosestPoint dilated_start_point closest
  if index_of_closest_end_point < index_of_closest_start_point then none
  else
    let extrication_line := (closest.drop index_of_closest_start_point).take
      (index_of_closest_end_point - index_of_closest_start_point)
    let extrication_poses : List (Pose K) :=
      extrication_line.map fun p => { v.end_pose with translation := p.1 }
    some ⟨v.traj.way_points_vector ++ extrication_poses.reverse,
      v.traj.color_vector ++ List.replicate extrication_line.length false⟩

/-- The loop over the lines of a pass: the poses of each line, then, except
after the last line, the extrication to the next one. -/
def passLines (env : Env K) (dist_to_extrication_mesh : K) (extrication_lines : List (Line K)) :
    List (Line K) → Traj K → Option (Traj K)
  | [], traj => some traj
  | [line], traj => some (linePoses env line traj).traj
  | line :: next :: rest, traj => do
    let traj' ← interLine dist_to_extrication_mesh extrication_lines (linePoses env line traj)
    passLines env dist_to_extrication_mesh extrication_lines (next :: rest) traj'

/-- The loop over the strips of the extrication cut: every strip with a
point replaces the poses collected so far (`lastnumberOfPoints` stays 0), and
`extrication_pose` keeps the last translation written. -/
def collectStrips (strips : List (Line K)) (extrication_pose : Pose K) :
    Pose K × List (Pose K) :=
  strips.foldl (fun acc strip =>
    if 0 < strip.length then
      strip.foldl (fun a p =>
        let pose : Pose K := { a.1 with translation := p.1 }
        (pose, a.2 ++ [pose])) (acc.1, [])
    else acc) (extrication_pose, [])

/-- Extrication from the last line of a pass back to the first one.  The
end point and end normal of the pass are read at index `size()` of the last
line, one past its end (`env.pastEnd`).  No result without a line, without a
first point, without a pose so far (`back()`), without a collected pose
(`extrication_poses[0]`), when `cutMesh` does not return, or when the end
index is past the start index (`insert` of a reversed iterator range). -/
def endOfPass (env : Env K) (st : State K) (fuel : Nat) (extrication_poly_data : PolyData K)
    (dist_to_extrication_mesh : K) (lines : List (Line K)) (traj : Traj K) :
    Option (Traj K) := do
  let first ← lines.head?
  let start ← first.head?
  let last ← lines.getLast?
  let start_point_pass := start.1
  let start_normal_pass := start.2
  let end_point_pass := (env.pastEnd last).1
  let end_normal_pass := (env.pastEnd last).2
  let extrication_pass_dir :=
    NVec.normalize env.sqrt (NVec.sub end_point_pass (some start_point_pass))
  let normal : NVec K := some st.mesh_normal_vector_
  let extrication_cut_dir := NVec.sub extrication_pass_dir
    (NVec.smulN (NVec.dot extrication_pass_dir normal) normal)
  let extrication_cut_dir := NVec.normalize env.sqrt (NVec.cross extrication_cut_dir normal)
  let extrication_stripper ← cutMesh env st.effector_diameter_ st.covering_ fuel
    extrication_poly_data extrication_cut_dir 1 Stripper.empty
  let back ← traj.way_points_vector.getLast?
  let collected := collectStrips extrication_stripper.lines back
  let extrication_pose := collected.1
  let front ← collected.2.head?
  let orientation := Vec3.sub extrication_pose.translation front.translation
  let extrication_poses :=
    if ltN (some 0) (NVec.dot (some orientation) extrication_pass_dir) then collected.2.reverse
    else collected.2
  let index_end_point_pass := seekClosestExtricationPassPoint
    (NVec.sub end_point_pass (NVec.smul dist_to_extrication_mesh end_normal_pass))
    extrication_poses
  let index_start_point_pass := seekClosestExtricationPassPoint
    (NVec.sub (some start_point_pass)
      (NVec.smul dist_to_extrication_mesh (some start_normal_pass)))
    extrication_poses
  if index_start_point_pass < index_end_point_pass then none
  else
    some ⟨traj.way_points_vector ++ (extrication_poses.drop index_end_point_pass).take
        (index_start_point_pass - index_end_point_pass),
      traj.color_vector ++
        List.replicate (index_start_point_pass - index_end_point_pass) false⟩

/-- Variables that live across the passes of `generateTrajectory`. -/
structure PassVars (K : Type) where
  extrication_poly_data : PolyData K
  extrication_lines : List (Line K)
  traj : Traj K
  index_vector : List Int

/-- The value `way_points_vector.size() - 1` pushed to `index_vector`: the
unsigned difference converted to `int`, which is -1 for the empty vector
(sizes stay below 2^31). -/
def lastIndex (traj : Traj K) : Int := (traj.way_points_vector.length : Int) - 1

/-- The dilation loop of `generateTrajectory`, which pushes a pass while the
dilated mesh is produced, intersects the default mesh and keeps more than 10
cells; `fuel` bounds the iterations. -/
def dilationLoop (env : Env K) (st : State K) :
    Nat → K → List (PolyData K × Bool) → Option (List (PolyData K × Bool))
  | 0, _, _ => none
  | fuel + 1, depth, stack => do
    let d ← dilatation env st depth
    if d.1 then
      let o ← defaultIntersectionOptimisation env st d.2
      if o.1 && decide (10 < o.2.cells.length) then
        dilationLoop env st fuel (depth + st.grind_depth_) (stack ++ [(o.2, false)])
      else some stack
    else some stack

/-- The extrication mesh and lines at the start of the pass
`polydata_index`: regenerated when the index is a multiple of
`extrication_frequency_`, the new lines being pushed behind the lines already
in `extrication_lines`. -/
def regenerate [FloorRing K] (env : Env K) (st : State K) (fuel : Nat) (polydata_index : Nat)
    (v : PassVars K) : Option (PolyData K × List (Line K)) :=
  if (polydata_index : Int) % st.extrication_frequency_ = 0 then do
    let factor : Int := (st.extrication_coefficiant_ + st.dilationPolyDataVector_.length - 1
      - polydata_index) % 2 ^ 64
    let dilated_depth : K := (factor : K) * st.grind_depth_
    let d ← dilatation env st dilated_depth
    let l ← generateStripperOnSurface env st fuel d.2 false v.extrication_lines
    some (d.2, l.2)
  else some (v.extrication_poly_data, v.extrication_lines)

/-- The body of the loop over the passes, for the pass `polydata_index`.
A zero `extrication_frequency_` is an integer division by zero. -/
def passBody [FloorRing K] (env : Env K) (st : State K) (fuel : Nat) (polydata_index : Nat)
    (v : PassVars K) : Option (PassVars K) :=
  if st.extrication_frequency_ = 0 then none
  else do
    let regenerated ← regenerate env st fuel polydata_index v
    let extrication_poly_data := regenerated.1
    let extrication_lines := regenerated.2
    let dist_to_extrication_mesh : K :=
      ((st.extrication_coefficiant_ + polydata_index : Int) : K) * st.grind_depth_
    let mesh ← st.dilationPolyDataVector_.get? polydata_index
    let l ← generateStripperOnSurface env st fuel mesh.1 mesh.2 []
    let lines := l.2
    let traj ← passLines env dist_to_extrication_mesh extrication_lines lines v.traj
    let traj ← endOfPass env st fuel extrication_poly_data dist_to_extrication_mesh lines traj
    some ⟨extrication_poly_data, extrication_lines, traj, v.index_vector ++ [lastIndex traj]⟩

/-- The first `n` iterations of the loop over the passes. -/
def passLoop [FloorRing K] (env : Env K) (st : State K) (fuel : Nat) :
    Nat → PassVars K → Option (PassVars K)
  | 0, v => some v
  | n + 1, v => do
    let v' ← passLoop env st fuel n v
    passBody env st fuel n v'

/-- The object after the first statements of `generateTrajectory`: point
normals on the input mesh, `ransac` and `generateDirection`. -/
def setUp (env : Env K) (st : State K) : State K :=
  let input := env.pointNormals st.inputPolyData_
  let mesh_normal := env.ransac input
  { st with
    inputPolyData_ := input
    mesh_normal_vector_ := mesh_normal
    vector_dir_ := generateDirection env mesh_normal }

/-- The object after the pass stack is built and reversed.
`generatePointNormals` rebinds `inputPolyData_` to a new filter output, so no
pointer pushed by an earlier call equals it, and the pointer pushed by this
call does. -/
def buildPasses (env : Env K) (st : State K) (fuel : Nat) : Option (State K) := do
  let st1 := setUp env st
  let pushed := st.dilationPolyDataVector_.map (fun m => (m.1, false)) ++
    [(st1.inputPolyData_, true)]
  let stack ← dilationLoop env st1 fuel st1.grind_depth_ pushed
  some { st1 with dilationPolyDataVector_ := stack.reverse }

/-- The variables before the first pass: both pose vectors cleared, and
`way_points_vector.size() - 1` already pushed to the `index_vector` of the
caller. -/
def initialVars (index_vector : List Int) : PassVars K :=
  ⟨PolyData.empty, [], ⟨[], []⟩, index_vector ++ [lastIndex (⟨[], []⟩ : Traj K)]⟩

/-- `Bezier::generateTrajectory`: the object after the call and the three
output vectors, for the `index_vector` the caller passes; the prior content
of the two other vectors is cleared by the first statements.  `fuel` bounds
the iterations of the dilation loop and of every `cutMesh` loop. -/
def generateTrajectory [FloorRing K] (env : Env K) (fuel : Nat) (st : State K)
    (index_vector : List Int) : Option (State K × Traj K × List Int) := do
  let st' ← buildPasses env st fuel
  let v ← passLoop env st' fuel st'.dilationPolyDataVector_.length (initialVars index_vector)
  some (st', v.traj, v.index_vector)

/-- The first offset is not taken as a pass: the dilation at depth
`grind_depth_` fails, or the pruner reports no intersection, or at most 10
cells remain (for the object after `setUp`). -/
def firstOffsetRejected (env : Env K) (st : State K) : Bool :=
  match dilatation env st st.grind_depth_ with
  | none => false
  | some d =>
    if d.1 then
      match defaultIntersectionOptimisation env st d.2 with
      | none => false
      | some o => !(o.1 && decide (10 < o.2.cells.length))
    else true

/-- The trajectory `t'` is `t` with some poses and as many colour flags
appended. -/
def Traj.Extends (t t' : Traj K) : Prop :=
  ∃ (w : List (Pose K)) (c : List Bool),
    t'.way_points_vector = t.way_points_vector ++ w ∧
    t'.color_vector = t.color_vector ++ c ∧ w.length = c.length

/-! ## Statements -/

/-- The three columns of the linear part are finite, of unit length and
pairwise orthogonal, each scalar product being off by at most `tol`. -/
def Pose.orthonormalWithin (tol : K) (P : Pose K) : Prop :=
  ∃ x y z : Vec3 K, P.col0 = some x ∧ P.col1 = some y ∧ P.col2 = some z ∧
    |Vec3.dot x x - 1| ≤ tol ∧ |Vec3.dot y y - 1| ≤ tol ∧ |Vec3.dot z z - 1| ≤ tol ∧
    |Vec3.dot x y| ≤ tol ∧ |Vec3.dot x z| ≤ tol ∧ |Vec3.dot y z| ≤ tol

/-- The inner loop of `removeNearNeighborPoints` as a recursion on the
points still to be visited: of two close points the second is erased and the
visit goes on behind it, or the first is erased when they are the last two. -/
def decimate (env : Env K) : Line K → Line K
  | a :: b :: c :: rest =>
    if env.sqrt (Vec3.dist2 a.1 b.1) < 1 / 1000 then a :: decimate env (c :: rest)
    else a :: decimate env (b :: c :: rest)
  | [a, b] => if env.sqrt (Vec3.dist2 a.1 b.1) < 1 / 1000 then [b] else [a, b]
  | [a] => [a]
  | [] => []

/-- The threshold `ε = effectorDiameter · (1 - covering) / 20` of the real
line count. -/
def sliceEpsilon (effector_diameter covering : K) : K :=
  (effector_diameter * (1 - covering)) / (2 * 10)

/-- The vector from the first point of a polyline to its last point. -/
def chord (line : Line K) : Vec3 K :=
  Vec3.sub (line.getLastD (Vec3.zero, Vec3.zero)).1 (line.headD (Vec3.zero, Vec3.zero)).1

/-- The orientation rule in the words of the specification: a polyline is
reversed exactly when `ref · (lastPoint - firstPoint) < 0`. -/
def orientSpec (ref : Vec3 K) (line : Line K) : Line K :=
  if Vec3.dot ref (chord line) < 0 then line.reverse else line

/-- The part of `generateStripperOnSurface` behind `cutMesh`: the lines read
from the stripper are pushed behind `lines`, then all lines are sorted,
oriented and decimated. -/
def organiseLines (env : Env K) (st : State K) (isInput : Bool) (lines : List (Line K))
    (stripper : Stripper K) : Option (Bool × List (Line K)) :=
  if !stripper.hasNormals then some (false, lines)
  else do
    let read : List (Line K) := stripper.lines.map fun cell =>
      cell.map fun pn => (pn.1, if isInput then Vec3.smul (-1) pn.2 else pn.2)
    let lines := lines ++ read
    let lines := lines.insertionSort fun a b =>
      lineKey env st.vector_dir_ a ≤ lineKey env st.vector_dir_ b
    let lines ← checkOrientation env st lines
    let lines ← removeNearNeighborPoints env lines
    some (true, lines)

/-- The test of the pruner on one vertex, in the words of the specification:
the vertex is finite and, for the nearest default vertex `q*` with normal
`n*`, `normalize(n*) · normalize(q* - p) > 0.1`. -/
def insideOfDefault (env : Env K) (default : PolyData K) (p : NVec K) : Bool :=
  match p with
  | none => false
  | some v =>
    match findClosestPoint default.points (some v) with
    | none => false
    | some iD =>
      match default.points.get? iD, default.normals.bind (fun ns => ns.get? iD) with
      | some q, some n =>
        ltN (some (1 / 10))
          (NVec.dot (Vec3.normalize env.sqrt n) (Vec3.normalize env.sqrt (Vec3.sub q v)))
      | _, _ => false

/-! ## Example data: a plate world over the rationals -/

/-- Newton iteration for the integer square root of `n` from an upper
estimate `x`. -/
def natSqrtIter (n : Nat) : Nat → Nat → Nat
  | 0, x => x
  | fuel + 1, x =>
    let y := (x + n / x) / 2
    if y < x then natSqrtIter n fuel y else x

/-- Integer square root, rounded down (for numbers below 2^200). -/
def natSqrt (n : Nat) : Nat := if n = 0 then 0 else natSqrtIter n 200 n

/-- Square root on the rationals, exact on squares of rationals and rounded
down on numerator and denominator otherwise. -/
def ratSqrt (q : ℚ) : ℚ := (natSqrt q.num.toNat : ℚ) / (natSqrt q.den : ℚ)

/-- Number of binary digits of a natural number after the leading one
(`fuel` bounds the number of digits). -/
def natLog2 : Nat → Nat → Nat
  | 0, _ => 0
  | fuel + 1, n => if n < 2 then 0 else natLog2 fuel (n / 2) + 1

/-- The power of two with an integer exponent. -/
def twoPow (e : Int) : ℚ :=
  if 0 ≤ e then ((2 ^ e.toNat : ℕ) : ℚ) else 1 / ((2 ^ (-e).toNat : ℕ) : ℚ)

/-- Conversion to `float` on the rationals: rounding to the nearest number
with 24 significant binary digits, ties to the even one (the exponent range
of `float` is not modelled, and numerator and denominator stay below
2^2000). -/
def floatRound (x : ℚ) : ℚ :=
  if x = 0 then 0
  else
    let a : ℚ := |x|
    let e0 : Int := (natLog2 2000 a.num.natAbs : Int) - (natLog2 2000 a.den : Int)
    let e : Int := if twoPow e0 ≤ a then e0 else e0 - 1
    let q : ℚ := twoPow (e - 23)
    let t : ℚ := a / q
    let m : Int := Int.floor t
    let r : ℚ := t - (m : ℚ)
    let n : Int :=
      if r < 1 / 2 then m else if 1 / 2 < r then m + 1 else if m % 2 = 0 then m else m + 1
    (if x < 0 then -1 else 1) * (n : ℚ) * q

/-- A rectangular plate `[0, 6] × [0, h]` at height `z`: its four corners
as the point array, with normals `(0, 0, 1)`, and as cells the 12 triangles
between the columns `x = 0, ..., 6`, without those whose column index is in
`gap`. -/
def plateMesh (z h : ℚ) (gap : List Nat) : PolyData ℚ where
  points := [⟨0, 0, z⟩, ⟨6, 0, z⟩, ⟨0, h, z⟩, ⟨6, h, z⟩]
  normals := some [⟨0, 0, 1⟩, ⟨0, 0, 1⟩, ⟨0, 0, 1⟩, ⟨0, 0, 1⟩]
  cells := ((List.range 6).filter fun i => !gap.contains i).flatMap fun i =>
    [[some ⟨i, 0, z⟩, some ⟨i + 1, 0, z⟩, some ⟨i, h, z⟩],
     [some ⟨i + 1, 0, z⟩, some ⟨i + 1, h, z⟩, some ⟨i, h, z⟩]]

/-- Bounds of the points of a mesh (the origin twice for no point). -/
def plateBounds (m : PolyData ℚ) : Vec3 ℚ × Vec3 ℚ :=
  match m.points with
  | [] => (Vec3.zero, Vec3.zero)
  | p :: rest =>
    rest.foldl (fun b q =>
      (⟨min b.1.x q.x, min b.1.y q.y, min b.1.z q.z⟩,
       ⟨max b.2.x q.x, max b.2.y q.y, max b.2.z q.z⟩)) (p, p)

/-- Whether the plane `x = c` meets a cell. -/
def cellMeets (c : ℚ) (cell : List (NVec ℚ)) : Bool :=
  cell.any (fun p => match p with | some v => decide (v.x ≤ c) | none => false) &&
  cell.any (fun p => match p with | some v => decide (c ≤ v.x) | none => false)

/-- Offsets of `n` planes over a range, as `vtkCutter::GenerateValues` sets
them. -/
def planeOffsets (n : Nat) (lo hi : ℚ) : List ℚ :=
  (List.range n).map fun i => if n ≤ 1 then lo else lo + (i : ℚ) * ((hi - lo) / ((n : ℚ) - 1))

/-- A cutter for plates cut across the `x` axis: one strip of two points,
with normals `(0, 0, 1)`, for every plane that meets a cell. -/
def plateCutter (m : PolyData ℚ) (origin : Vec3 ℚ) (_normal : NVec ℚ) (n : Nat) (lo hi : ℚ) :
    Stripper ℚ :=
  let b := plateBounds m
  let xs := ((planeOffsets n lo hi).map fun v => origin.x + v).filter fun c =>
    m.cells.any (cellMeets c)
  ⟨true, xs.map fun c => [(⟨c, b.1.y, b.1.z⟩, ⟨0, 0, 1⟩), (⟨c, b.2.y, b.2.z⟩, ⟨0, 0, 1⟩)]⟩

/-- Mean of the points of a cell. -/
def plateCellCenter (cell : List (NVec ℚ)) : NVec ℚ :=
  (cell.foldl NVec.add (some Vec3.zero)).map (Vec3.smul (1 / (cell.length : ℚ)))

/-- The plate world: dilation at a depth gives the plate `[0, 6] × [0, 8]`
at that height. -/
def plateEnv : Env ℚ where
  sqrt := ratSqrt
  pointNormals := id
  ransac := fun _ => ⟨0, 0, 1⟩
  bounds := plateBounds
  center := fun m => Vec3.smul (1 / 2) (Vec3.add (plateBounds m).1 (plateBounds m).2)
  isoSurface := fun _ _ _ depth => plateMesh depth 8 []
  cellCenter := plateCellCenter
  cutter := plateCutter
  pastEnd := fun line =>
    ((line.getLast?.map Prod.fst), (line.getLast?.map Prod.snd))
  toUnsigned := fun _ _ => 0
  toFloat := floatRound

/-- A `Bezier` object before its first call: grind depth 1, effector
diameter 4, covering 1/2, extrication coefficient 2 and frequency 1, no
pass in the stack. -/
def plateState (input default : PolyData ℚ) : State ℚ where
  grind_depth_ := 1
  effector_diameter_ := 4
  covering_ := 1 / 2
  extrication_coefficiant_ := 2
  extrication_frequency_ := 1
  inputPolyData_ := input
  defaultPolyData_ := default
  dilationPolyDataVector_ := []
  mesh_normal_vector_ := ⟨1, 0, 0⟩
  vector_dir_ := some ⟨1, 0, 0⟩

/-- A default mesh: the points `(0, 0, z)`, `(3, 0, z)` and `(6, 0, z)` with
normals `(0, 0, 1)` (its cells are not read). -/
def defaultRow (z : ℚ) : PolyData ℚ where
  points := [⟨0, 0, z⟩, ⟨3, 0, z⟩, ⟨6, 0, z⟩]
  normals := some [⟨0, 0, 1⟩, ⟨0, 0, 1⟩, ⟨0, 0, 1⟩]
  cells := []

/-- Input plate of height 8 at `z = 0`, default mesh at `z = 3/2`: the
dilation at depth 1 meets the default mesh, the one at depth 2 does not. -/
def plateObject : State ℚ := plateState (plateMesh 0 8 []) (defaultRow (3 / 2))

/-- As `plateObject` with an input plate of height 1/2000: the two points
of every strip cut from the input mesh are closer than 1/1000. -/
def sliverObject : State ℚ := plateState (plateMesh 0 (1 / 2000) []) (defaultRow (3 / 2))

/-- As `plateObject` with the default mesh at `z = 1/2`, below the dilation
at depth 1. -/
def lowDefaultObject : State ℚ := plateState (plateMesh 0 8 []) (defaultRow (1 / 2))

/-- The three strips the plate cutter gives for five planes on a plate
`[0, 6] × [0, 8]` at height `z`: at `x = 1/2`, `3` and `11/2`. -/
def plateStrips (z : ℚ) : List (Line ℚ) :=
  [[(⟨1 / 2, 0, z⟩, ⟨0, 0, 1⟩), (⟨1 / 2, 8, z⟩, ⟨0, 0, 1⟩)],
   [(⟨3, 0, z⟩, ⟨0, 0, 1⟩), (⟨3, 8, z⟩, ⟨0, 0, 1⟩)],
   [(⟨11 / 2, 0, z⟩, ⟨0, 0, 1⟩), (⟨11 / 2, 8, z⟩, ⟨0, 0, 1⟩)]]

/-- A mesh of one triangle on the negative side of the `x` axis: its
vertices have the products -3, -1 and -2 with the direction `(1, 0, 0)`. -/
def negativeMesh : PolyData ℚ where
  points := [⟨-3, 0, 0⟩, ⟨-1, 0, 0⟩, ⟨-2, 1, 0⟩]
  normals := some [⟨0, 0, 1⟩, ⟨0, 0, 1⟩, ⟨0, 0, 1⟩]
  cells := [[some ⟨-3, 0, 0⟩, some ⟨-1, 0, 0⟩, some ⟨-2, 1, 0⟩]]

/-- Three strips, the first of which does not lie in a plane normal to the
`x` axis: it runs from `(0, 0, 0)` to `(10, 1, 0)`. -/
def skewStrips : List (Line ℚ) :=
  [[(⟨0, 0, 0⟩, ⟨0, 0, 1⟩), (⟨10, 1, 0⟩, ⟨0, 0, 1⟩)],
   [(⟨3, 8, 0⟩, ⟨0, 0, 1⟩), (⟨3, 0, 0⟩, ⟨0, 0, 1⟩)],
   [(⟨11 / 2, 8, 0⟩, ⟨0, 0, 1⟩), (⟨11 / 2, 0, 0⟩, ⟨0, 0, 1⟩)]]

/-- The plate world where the read past the end of a line finds the point
`(0, 100, 0)` with normal `(0, 0, 1)`. -/
def garbageEnv : Env ℚ :=
  { plateEnv with pastEnd := fun _ => (some ⟨0, 100, 0⟩, some ⟨0, 0, 1⟩) }

/-- A polyline whose first three points are at 0, 0.0004 and 0.0008 on the
`x` axis, the fourth at 1. -/
def closeRun : Line ℚ :=
  [(⟨0, 0, 0⟩, ⟨0, 0, 1⟩), (⟨4 / 10000, 0, 0⟩, ⟨0, 0, 1⟩), (⟨8 / 10000, 0, 0⟩, ⟨0, 0, 1⟩),
   (⟨1, 0, 0⟩, ⟨0, 0, 1⟩)]

/-- Sizes of the result of a call: number of passes in the stack, number of
poses, number of colour flags, and the index vector. -/
def summary {K : Type} (r : State K × Traj K × List Int) : Nat × Nat × Nat × List Int :=
  (r.1.dilationPolyDataVector_.length, r.2.1.way_points_vector.length,
    r.2.1.color_vector.length, r.2.2)

end Bezier


namespace Bezier

/-- The expected line count in the words of the specification:
`⌈(max - min) / (effectorDiameter · (1 - covering))⌉`, where `max` and `min`
are the largest and the smallest product of a cell vertex with the direction
(0 for a mesh without finite vertex). -/
def expectedLineCountSpec {K : Type} [LinearOrderedField K] [FloorRing K]
    (effector_diameter covering : K) (poly_data : PolyData K) (dir : Vec3 K) : Nat :=
  let values : List K :=
    poly_data.cells.flatMap fun cell => cell.filterMap fun p => p.map fun v => Vec3.dot v dir
  match values with
  | [] => 0
  | v :: vs => Nat.ceil ((vs.foldl max v - vs.foldl min v) / (effector_diameter * (1 - covering)))

/-- The product `getRealSliceNumber` collects for one strip and a finite
direction: the product of the direction and the sampled point of the strip. -/
def midProjection {K : Type} [LinearOrderedField K] (dir : Vec3 K) (line : Line K) : K :=
  Vec3.dot dir ((line.getD (midIndex line.length) (Vec3.zero, Vec3.zero)).1)

end Bezier


namespace Bezier

/-! ## Exact square roots and normalisation -/

section Frame

variable {K : Type} [LinearOrderedField K]

theorem IsSqrt.eq_of_sq {sqrt : K → K} (hs : IsSqrt sqrt) {r : K} (hr : 0 ≤ r) :
    sqrt (r * r) = r := by
  obtain ⟨h0, h1⟩ := hs (r * r) (mul_self_nonneg r)
  exact (mul_self_inj h0 hr).1 h1

theorem IsSqrt.eq_zero_iff {sqrt : K → K} (hs : IsSqrt sqrt) {x : K} (hx : 0 ≤ x) :
    sqrt x = 0 ↔ x = 0 := by
  obtain ⟨_, h1⟩ := hs x hx
  constructor
  · intro h
    rw [← h1, h, mul_zero]
  · intro h
    subst h
    have := hs.eq_of_sq (le_refl (0 : K))
    simpa using this

theorem IsSqrt.pos {sqrt : K → K} (hs : IsSqrt sqrt) {x : K} (hx : 0 < x) : 0 < sqrt x := by
  obtain ⟨h0, _⟩ := hs x hx.le
  rcases h0.lt_or_eq with h | h
  · exact h
  · exact absurd ((hs.eq_zero_iff hx.le).1 h.symm) hx.ne'

theorem Vec3.dot_self_nonneg (v : Vec3 K) : 0 ≤ Vec3.dot v v := by
  unfold Vec3.dot
  nlinarith [mul_self_nonneg v.x, mul_self_nonneg v.y, mul_self_nonneg v.z]

theorem Vec3.dot_self_eq_zero_iff (v : Vec3 K) : Vec3.dot v v = 0 ↔ v = Vec3.zero := by
  constructor
  · intro h
    unfold Vec3.dot at h
    have hx : v.x = 0 := by
      nlinarith [mul_self_nonneg v.x, mul_self_nonneg v.y, mul_self_nonneg v.z]
    have hy : v.y = 0 := by
      nlinarith [mul_self_nonneg v.x, mul_self_nonneg v.y, mul_self_nonneg v.z]
    have hz : v.z = 0 := by
      nlinarith [mul_self_nonneg v.x, mul_self_nonneg v.y, mul_self_nonneg v.z]
    ext <;> simp [Vec3.zero, hx, hy, hz]
  · intro h
    subst h
    simp [Vec3.dot, Vec3.zero]

theorem Vec3.norm_eq_zero_iff {sqrt : K → K} (hs : IsSqrt sqrt) (v : Vec3 K) :
    Vec3.norm sqrt v = 0 ↔ v = Vec3.zero := by
  unfold Vec3.norm
  rw [hs.eq_zero_iff (Vec3.dot_self_nonneg v), Vec3.dot_self_eq_zero_iff]

theorem Vec3.normalize_eq_none_iff {sqrt : K → K} (hs : IsSqrt sqrt) (v : Vec3 K) :
    Vec3.normalize sqrt v = none ↔ v = Vec3.zero := by
  rw [← Vec3.norm_eq_zero_iff hs v]
  unfold Vec3.normalize
  by_cases h : Vec3.norm sqrt v = 0
  · simp [h]
  · simp [h]

theorem Vec3.norm_pos {sqrt : K → K} (hs : IsSqrt sqrt) {v : Vec3 K} (hv : v ≠ Vec3.zero) :
    0 < Vec3.norm sqrt v := by
  have h0 : 0 ≤ Vec3.norm sqrt v := (hs _ (Vec3.dot_self_nonneg v)).1
  rcases h0.lt_or_eq with h | h
  · exact h
  · exact absurd ((Vec3.norm_eq_zero_iff hs v).1 h.symm) hv

theorem Vec3.norm_mul_self {sqrt : K → K} (hs : IsSqrt sqrt) (v : Vec3 K) :
    Vec3.norm sqrt v * Vec3.norm sqrt v = Vec3.dot v v :=
  (hs _ (Vec3.dot_self_nonneg v)).2

theorem Vec3.norm_smul {sqrt : K → K} (hs : IsSqrt sqrt) {c : K} (hc : 0 ≤ c) (v : Vec3 K) :
    Vec3.norm sqrt (Vec3.smul c v) = c * Vec3.norm sqrt v := by
  have h0 : 0 ≤ Vec3.norm sqrt v := (hs _ (Vec3.dot_self_nonneg v)).1
  have h1 : Vec3.dot (Vec3.smul c v) (Vec3.smul c v)
      = (c * Vec3.norm sqrt v) * (c * Vec3.norm sqrt v) := by
    have := Vec3.norm_mul_self hs v
    calc Vec3.dot (Vec3.smul c v) (Vec3.smul c v) = c * c * Vec3.dot v v := by
          simp only [Vec3.dot, Vec3.smul]; ring
      _ = (c * Vec3.norm sqrt v) * (c * Vec3.norm sqrt v) := by rw [← this]; ring
  unfold Vec3.norm at *
  rw [h1]
  exact hs.eq_of_sq (mul_nonneg hc h0)

/-- Normalisation does not see a positive scale factor. -/
theorem Vec3.normalize_smul {sqrt : K → K} (hs : IsSqrt sqrt) {c : K} (hc : 0 < c)
    (v : Vec3 K) : Vec3.normalize sqrt (Vec3.smul c v) = Vec3.normalize sqrt v := by
  unfold Vec3.normalize
  rw [Vec3.norm_smul hs hc.le]
  by_cases h : Vec3.norm sqrt v = 0
  · simp [h]
  · have hc' : c ≠ 0 := hc.ne'
    simp only [h, mul_eq_zero, hc', or_self, if_false, Vec3.smul]
    congr 2 <;> field_simp <;> ring

theorem Vec3.cross_smul_smul (a b : K) (u v : Vec3 K) :
    Vec3.cross (Vec3.smul a u) (Vec3.smul b v) = Vec3.smul (a * b) (Vec3.cross u v) := by
  ext <;> simp only [Vec3.cross, Vec3.smul] <;> ring

theorem Vec3.cross_zero_left (v : Vec3 K) : Vec3.cross Vec3.zero v = Vec3.zero := by
  ext <;> simp [Vec3.cross, Vec3.zero]

theorem Vec3.cross_zero_right (v : Vec3 K) : Vec3.cross v Vec3.zero = Vec3.zero := by
  ext <;> simp [Vec3.cross, Vec3.zero]

theorem Vec3.sub_eq_zero_iff (a b : Vec3 K) : Vec3.sub a b = Vec3.zero ↔ a = b := by
  constructor
  · intro h
    have hx := congrArg Vec3.x h
    have hy := congrArg Vec3.y h
    have hz := congrArg Vec3.z h
    simp only [Vec3.sub, Vec3.zero] at hx hy hz
    ext
    · exact sub_eq_zero.1 hx
    · exact sub_eq_zero.1 hy
    · exact sub_eq_zero.1 hz
  · intro h
    subst h
    ext <;> simp [Vec3.sub, Vec3.zero]

/-- A vector written as its norm times its normalised form. -/
theorem Vec3.normalize_eq_some {sqrt : K → K} (hs : IsSqrt sqrt) {v : Vec3 K}
    (hv : v ≠ Vec3.zero) :
    Vec3.normalize sqrt v = some (Vec3.smul (1 / Vec3.norm sqrt v) v) := by
  have h : Vec3.norm sqrt v ≠ 0 := (Vec3.norm_pos hs hv).ne'
  unfold Vec3.normalize
  simp only [h, if_false, Vec3.smul]
  congr 2 <;> field_simp

/-- The flag of `generateRobotPoses` in exact arithmetic. -/
theorem generateRobotPoses_fst_eq_false_iff {sqrt : K → K} (hs : IsSqrt sqrt)
    (p pn n : Vec3 K) (pose : Pose K) :
    (generateRobotPoses sqrt p pn n pose).1 = false ↔
      (pn = p ∨ Vec3.cross n (Vec3.sub pn p) = Vec3.zero) := by
  rw [← Vec3.sub_eq_zero_iff pn p, ← Vec3.normalize_eq_none_iff hs (Vec3.cross n (Vec3.sub pn p))]
  unfold generateRobotPoses
  by_cases hd : Vec3.sub pn p = Vec3.zero
  · simp only [hd, if_true, true_or]
  · cases hy : Vec3.normalize sqrt (Vec3.cross n (Vec3.sub pn p)) with
    | none => simp [hd, hy]
    | some w => simp [hd, hy]

theorem generateRobotPoses_of_fail {sqrt : K → K} (p pn n : Vec3 K) (pose : Pose K)
    (h : (generateRobotPoses sqrt p pn n pose).1 = false) :
    (generateRobotPoses sqrt p pn n pose).2 = pose := by
  unfold generateRobotPoses at h ⊢
  by_cases hd : Vec3.sub pn p = Vec3.zero
  · simp [hd]
  · cases hy : Vec3.normalize sqrt (Vec3.cross n (Vec3.sub pn p)) with
    | none => simp [hd, hy]
    | some w => simp [hd, hy] at h

/-- The pose written by a successful `generateRobotPoses`. -/
theorem generateRobotPoses_of_success {sqrt : K → K} (hs : IsSqrt sqrt)
    (p pn n : Vec3 K) (pose : Pose K)
    (h : (generateRobotPoses sqrt p pn n pose).1 = true) :
    Vec3.sub pn p ≠ Vec3.zero ∧ n ≠ Vec3.zero ∧
      Vec3.cross n (Vec3.sub pn p) ≠ Vec3.zero ∧
      (generateRobotPoses sqrt p pn n pose).2 =
        { translation := p
          col0 := Vec3.normalize sqrt (Vec3.sub pn p)
          col1 := Vec3.normalize sqrt (Vec3.cross n (Vec3.sub pn p))
          col2 := Vec3.normalize sqrt n } := by
  have hf := generateRobotPoses_fst_eq_false_iff hs p pn n pose
  have hnf : ¬ (pn = p ∨ Vec3.cross n (Vec3.sub pn p) = Vec3.zero) := by
    intro hc
    rw [hf.2 hc] at h
    exact Bool.false_ne_true h
  have hd : Vec3.sub pn p ≠ Vec3.zero :=
    fun hc => hnf (Or.inl ((Vec3.sub_eq_zero_iff pn p).1 hc))
  have hy : Vec3.cross n (Vec3.sub pn p) ≠ Vec3.zero := fun hc => hnf (Or.inr hc)
  have hn : n ≠ Vec3.zero := by
    intro hc
    apply hy
    rw [hc]
    exact Vec3.cross_zero_left _
  refine ⟨hd, hn, hy, ?_⟩
  have : Vec3.normalize sqrt (Vec3.cross n (Vec3.sub pn p)) ≠ none :=
    fun hc => hy ((Vec3.normalize_eq_none_iff hs _).1 hc)
  obtain ⟨w, hw⟩ := Option.ne_none_iff_exists'.1 this
  unfold generateRobotPoses
  simp [hd, hw]

theorem isSqrt_real : IsSqrt Real.sqrt :=
  fun x hx => ⟨Real.sqrt_nonneg x, Real.mul_self_sqrt hx⟩

theorem Vec3.dot_normalized_self {sqrt : K → K} (hs : IsSqrt sqrt) {v : Vec3 K}
    (hv : v ≠ Vec3.zero) :
    Vec3.dot (Vec3.smul (1 / Vec3.norm sqrt v) v) (Vec3.smul (1 / Vec3.norm sqrt v) v) = 1 := by
  have h : Vec3.norm sqrt v ≠ 0 := (Vec3.norm_pos hs hv).ne'
  have h2 := Vec3.norm_mul_self hs v
  calc Vec3.dot (Vec3.smul (1 / Vec3.norm sqrt v) v) (Vec3.smul (1 / Vec3.norm sqrt v) v)
      = Vec3.dot v v / (Vec3.norm sqrt v * Vec3.norm sqrt v) := by
        simp only [Vec3.dot, Vec3.smul]; field_simp
    _ = 1 := by rw [h2]; exact div_self (by rw [← h2]; exact mul_ne_zero h h)

/-- C6: when `generateRobotPoses` reports success, the pose has translation
`p`, first column `x = normalize(p_next - p)`, third column `z = normalize(n)`
and second column `normalize(z × x)`, all three finite. -/
theorem generateRobotPoses_frame (sqrt : K → K) (hs : IsSqrt sqrt) (p pn n : Vec3 K)
    (pose : Pose K) (h : (generateRobotPoses sqrt p pn n pose).1 = true) :
    ∃ x y z : Vec3 K,
      Vec3.normalize sqrt (Vec3.sub pn p) = some x ∧
      Vec3.normalize sqrt n = some z ∧
      Vec3.normalize sqrt (Vec3.cross z x) = some y ∧
      (generateRobotPoses sqrt p pn n pose).2 =
        { translation := p, col0 := some x, col1 := some y, col2 := some z } := by
  obtain ⟨hd, hn, hy, hres⟩ := generateRobotPoses_of_success hs p pn n pose h
  have hx' := Vec3.normalize_eq_some hs hd
  have hz' := Vec3.normalize_eq_some hs hn
  have hy' := Vec3.normalize_eq_some hs hy
  have hpos : 0 < 1 / Vec3.norm sqrt n * (1 / Vec3.norm sqrt (Vec3.sub pn p)) :=
    mul_pos (one_div_pos.2 (Vec3.norm_pos hs hn)) (one_div_pos.2 (Vec3.norm_pos hs hd))
  refine ⟨Vec3.smul (1 / Vec3.norm sqrt (Vec3.sub pn p)) (Vec3.sub pn p),
    Vec3.smul (1 / Vec3.norm sqrt (Vec3.cross n (Vec3.sub pn p))) (Vec3.cross n (Vec3.sub pn p)),
    Vec3.smul (1 / Vec3.norm sqrt n) n, hx', hz', ?_, ?_⟩
  · rw [Vec3.cross_smul_smul, Vec3.normalize_smul hs hpos]
    exact hy'
  · rw [hres, hx', hz', hy']

/-- Witness for C6 over the reals, advance `(3, 0, 4)` and normal `(0, 0, 1)`. -/
theorem generateRobotPoses_frame_witness :
    IsSqrt Real.sqrt ∧
    (generateRobotPoses Real.sqrt (⟨0, 0, 0⟩ : Vec3 ℝ) ⟨3, 0, 4⟩ ⟨0, 0, 1⟩ Pose.identity).1 = true ∧
    ∃ x y z : Vec3 ℝ,
      Vec3.normalize Real.sqrt (Vec3.sub ⟨3, 0, 4⟩ ⟨0, 0, 0⟩) = some x ∧
      Vec3.normalize Real.sqrt ⟨0, 0, 1⟩ = some z ∧
      Vec3.normalize Real.sqrt (Vec3.cross z x) = some y ∧
      (generateRobotPoses Real.sqrt (⟨0, 0, 0⟩ : Vec3 ℝ) ⟨3, 0, 4⟩ ⟨0, 0, 1⟩ Pose.identity).2 =
        { translation := ⟨0, 0, 0⟩, col0 := some x, col1 := some y, col2 := some z } := by
  have h : (generateRobotPoses Real.sqrt (⟨0, 0, 0⟩ : Vec3 ℝ) ⟨3, 0, 4⟩ ⟨0, 0, 1⟩
      Pose.identity).1 = true := by
    rw [← Bool.not_eq_false, generateRobotPoses_fst_eq_false_iff isSqrt_real]
    simp [Vec3.cross, Vec3.sub, Vec3.zero, Vec3.ext_iff]
  exact ⟨isSqrt_real, h, generateRobotPoses_frame Real.sqrt isSqrt_real _ _ _ _ h⟩

theorem Vec3.dot_smul_smul (a b : K) (u v : Vec3 K) :
    Vec3.dot (Vec3.smul a u) (Vec3.smul b v) = a * b * Vec3.dot u v := by
  simp only [Vec3.dot, Vec3.smul]; ring

theorem Vec3.dot_cross_self_right (n d : Vec3 K) : Vec3.dot d (Vec3.cross n d) = 0 := by
  simp only [Vec3.dot, Vec3.cross]; ring

theorem Vec3.dot_cross_self_left (n d : Vec3 K) : Vec3.dot (Vec3.cross n d) n = 0 := by
  simp only [Vec3.dot, Vec3.cross]; ring

theorem Vec3.dot_comm (u v : Vec3 K) : Vec3.dot u v = Vec3.dot v u := by
  simp only [Vec3.dot]; ring

/-- C7 fails as stated: with advance `(3, 0, 4)` and normal `(0, 0, 1)` the
call succeeds and the first and third columns have scalar product `4/5`. -/
theorem generateRobotPoses_not_orthonormal :
    (generateRobotPoses Real.sqrt (⟨0, 0, 0⟩ : Vec3 ℝ) ⟨3, 0, 4⟩ ⟨0, 0, 1⟩ Pose.identity).1 = true ∧
    ¬ Pose.orthonormalWithin (1 / 10 ^ 6)
      (generateRobotPoses Real.sqrt (⟨0, 0, 0⟩ : Vec3 ℝ) ⟨3, 0, 4⟩ ⟨0, 0, 1⟩ Pose.identity).2 := by
  have h : (generateRobotPoses Real.sqrt (⟨0, 0, 0⟩ : Vec3 ℝ) ⟨3, 0, 4⟩ ⟨0, 0, 1⟩
      Pose.identity).1 = true := by
    rw [← Bool.not_eq_false, generateRobotPoses_fst_eq_false_iff isSqrt_real]
    simp [Vec3.cross, Vec3.sub, Vec3.zero, Vec3.ext_iff]
  refine ⟨h, ?_⟩
  obtain ⟨hd, hn, _, hres⟩ := generateRobotPoses_of_success isSqrt_real _ _ _ _ h
  have hnd : Vec3.norm Real.sqrt (Vec3.sub (⟨3, 0, 4⟩ : Vec3 ℝ) ⟨0, 0, 0⟩) = 5 := by
    have : Vec3.dot (Vec3.sub (⟨3, 0, 4⟩ : Vec3 ℝ) ⟨0, 0, 0⟩)
        (Vec3.sub (⟨3, 0, 4⟩ : Vec3 ℝ) ⟨0, 0, 0⟩) = 5 * 5 := by
      simp only [Vec3.dot, Vec3.sub]; norm_num
    unfold Vec3.norm
    rw [this]
    exact Real.sqrt_mul_self (by norm_num)
  have hnn : Vec3.norm Real.sqrt (⟨0, 0, 1⟩ : Vec3 ℝ) = 1 := by
    have : Vec3.dot (⟨0, 0, 1⟩ : Vec3 ℝ) ⟨0, 0, 1⟩ = 1 * 1 := by
      simp only [Vec3.dot]; norm_num
    unfold Vec3.norm
    rw [this]
    exact Real.sqrt_mul_self (by norm_num)
  rintro ⟨x, y, z, hx, _, hz, _, _, _, _, hxz, _⟩
  rw [hres] at hx hz
  simp only at hx hz
  rw [Vec3.normalize_eq_some isSqrt_real hd, hnd] at hx
  rw [Vec3.normalize_eq_some isSqrt_real hn, hnn] at hz
  have hx' := Option.some.inj hx
  have hz' := Option.some.inj hz
  rw [← hx', ← hz', Vec3.dot_smul_smul] at hxz
  simp only [Vec3.dot, Vec3.sub] at hxz
  norm_num at hxz
  rw [abs_of_pos (by norm_num)] at hxz
  norm_num at hxz

/-- C7 as amended: on success the three columns are finite and of unit
length, the second is orthogonal to the first and to the third, and the first
and third are orthogonal exactly when the normal is orthogonal to the
advance `p_next - p`. -/
theorem generateRobotPoses_columns (sqrt : K → K) (hs : IsSqrt sqrt) (p pn n : Vec3 K)
    (pose : Pose K) (h : (generateRobotPoses sqrt p pn n pose).1 = true) :
    ∃ x y z : Vec3 K,
      (generateRobotPoses sqrt p pn n pose).2.col0 = some x ∧
      (generateRobotPoses sqrt p pn n pose).2.col1 = some y ∧
      (generateRobotPoses sqrt p pn n pose).2.col2 = some z ∧
      Vec3.dot x x = 1 ∧ Vec3.dot y y = 1 ∧ Vec3.dot z z = 1 ∧
      Vec3.dot x y = 0 ∧ Vec3.dot y z = 0 ∧
      (Vec3.dot x z = 0 ↔ Vec3.dot (Vec3.sub pn p) n = 0) := by
  obtain ⟨hd, hn, hy, hres⟩ := generateRobotPoses_of_success hs p pn n pose h
  have ha : 1 / Vec3.norm sqrt (Vec3.sub pn p) ≠ 0 :=
    (one_div_pos.2 (Vec3.norm_pos hs hd)).ne'
  have he : 1 / Vec3.norm sqrt n ≠ 0 := (one_div_pos.2 (Vec3.norm_pos hs hn)).ne'
  refine ⟨Vec3.smul (1 / Vec3.norm sqrt (Vec3.sub pn p)) (Vec3.sub pn p),
    Vec3.smul (1 / Vec3.norm sqrt (Vec3.cross n (Vec3.sub pn p))) (Vec3.cross n (Vec3.sub pn p)),
    Vec3.smul (1 / Vec3.norm sqrt n) n, ?_, ?_, ?_,
    Vec3.dot_normalized_self hs hd, Vec3.dot_normalized_self hs hy,
    Vec3.dot_normalized_self hs hn, ?_, ?_, ?_⟩
  · rw [hres]; exact Vec3.normalize_eq_some hs hd
  · rw [hres]; exact Vec3.normalize_eq_some hs hy
  · rw [hres]; exact Vec3.normalize_eq_some hs hn
  · rw [Vec3.dot_smul_smul, Vec3.dot_cross_self_right, mul_zero]
  · rw [Vec3.dot_smul_smul, Vec3.dot_cross_self_left, mul_zero]
  · rw [Vec3.dot_smul_smul]
    constructor
    · intro h0
      rcases mul_eq_zero.1 h0 with h1 | h1
      · exact absurd h1 (mul_ne_zero ha he)
      · exact h1
    · intro h0
      rw [h0, mul_zero]

/-- Witness for the amended C7 over the reals. -/
theorem generateRobotPoses_columns_witness :
    IsSqrt Real.sqrt ∧
    (generateRobotPoses Real.sqrt (⟨0, 0, 0⟩ : Vec3 ℝ) ⟨3, 0, 4⟩ ⟨0, 0, 1⟩ Pose.identity).1 = true ∧
    ∃ x y z : Vec3 ℝ,
      (generateRobotPoses Real.sqrt (⟨0, 0, 0⟩ : Vec3 ℝ) ⟨3, 0, 4⟩ ⟨0, 0, 1⟩
        Pose.identity).2.col0 = some x ∧
      (generateRobotPoses Real.sqrt (⟨0, 0, 0⟩ : Vec3 ℝ) ⟨3, 0, 4⟩ ⟨0, 0, 1⟩
        Pose.identity).2.col1 = some y ∧
      (generateRobotPoses Real.sqrt (⟨0, 0, 0⟩ : Vec3 ℝ) ⟨3, 0, 4⟩ ⟨0, 0, 1⟩
        Pose.identity).2.col2 = some z ∧
      Vec3.dot x x = 1 ∧ Vec3.dot y y = 1 ∧ Vec3.dot z z = 1 ∧
      Vec3.dot x y = 0 ∧ Vec3.dot y z = 0 ∧
      (Vec3.dot x z = 0 ↔ Vec3.dot (Vec3.sub (⟨3, 0, 4⟩ : Vec3 ℝ) ⟨0, 0, 0⟩) ⟨0, 0, 1⟩ = 0) := by
  have h : (generateRobotPoses Real.sqrt (⟨0, 0, 0⟩ : Vec3 ℝ) ⟨3, 0, 4⟩ ⟨0, 0, 1⟩
      Pose.identity).1 = true := by
    rw [← Bool.not_eq_false, generateRobotPoses_fst_eq_false_iff isSqrt_real]
    simp [Vec3.cross, Vec3.sub, Vec3.zero, Vec3.ext_iff]
  exact ⟨isSqrt_real, h, generateRobotPoses_columns Real.sqrt isSqrt_real _ _ _ _ h⟩

/-- C8: in exact arithmetic `generateRobotPoses` reports failure exactly when
`p_next = p` or the normalised `y` axis is not finite, which is when
`n × (p_next - p)` is the zero vector; on failure the pose argument is left
as it was passed. -/
theorem generateRobotPoses_failure (sqrt : K → K) (hs : IsSqrt sqrt) (p pn n : Vec3 K)
    (pose : Pose K) :
    ((generateRobotPoses sqrt p pn n pose).1 = false ↔
      (pn = p ∨ Vec3.normalize sqrt (Vec3.cross n (Vec3.sub pn p)) = none)) ∧
    (Vec3.normalize sqrt (Vec3.cross n (Vec3.sub pn p)) = none ↔
      Vec3.cross n (Vec3.sub pn p) = Vec3.zero) ∧
    ((generateRobotPoses sqrt p pn n pose).1 = false →
      (generateRobotPoses sqrt p pn n pose).2 = pose) := by
  refine ⟨?_, Vec3.normalize_eq_none_iff hs _, generateRobotPoses_of_fail p pn n pose⟩
  rw [Vec3.normalize_eq_none_iff hs]
  exact generateRobotPoses_fst_eq_false_iff hs p pn n pose

/-- Witness for C8 over the reals: a normal parallel to the advance. -/
theorem generateRobotPoses_failure_witness :
    IsSqrt Real.sqrt ∧
    ((generateRobotPoses Real.sqrt (⟨0, 0, 0⟩ : Vec3 ℝ) ⟨0, 0, 2⟩ ⟨0, 0, 1⟩ Pose.identity).1 = false ↔
      ((⟨0, 0, 2⟩ : Vec3 ℝ) = ⟨0, 0, 0⟩ ∨
        Vec3.normalize Real.sqrt (Vec3.cross (⟨0, 0, 1⟩ : Vec3 ℝ)
          (Vec3.sub ⟨0, 0, 2⟩ ⟨0, 0, 0⟩)) = none)) ∧
    (Vec3.normalize Real.sqrt (Vec3.cross (⟨0, 0, 1⟩ : Vec3 ℝ)
        (Vec3.sub ⟨0, 0, 2⟩ ⟨0, 0, 0⟩)) = none ↔
      Vec3.cross (⟨0, 0, 1⟩ : Vec3 ℝ) (Vec3.sub ⟨0, 0, 2⟩ ⟨0, 0, 0⟩) = Vec3.zero) ∧
    ((generateRobotPoses Real.sqrt (⟨0, 0, 0⟩ : Vec3 ℝ) ⟨0, 0, 2⟩ ⟨0, 0, 1⟩ Pose.identity).1 = false →
      (generateRobotPoses Real.sqrt (⟨0, 0, 0⟩ : Vec3 ℝ) ⟨0, 0, 2⟩ ⟨0, 0, 1⟩ Pose.identity).2 =
        Pose.identity) :=
  ⟨isSqrt_real, generateRobotPoses_failure Real.sqrt isSqrt_real _ _ _ _⟩

end Frame

/-! ## The retry loop of `cutMesh` -/

section Slicer

variable {K : Type} [LinearOrderedField K]

theorem cutMeshLoop_eq_some_iff (env : Env K) (eff cov : K) (mesh : PolyData K)
    (dir : NVec K) (E : Nat) (fuel temp : Nat) (s : Stripper K) :
    cutMeshLoop env eff cov mesh (NVec.normalize env.sqrt dir)
        (env.sqrt (Vec3.dist2 (env.bounds mesh).1 (env.center mesh)))
        (env.sqrt (Vec3.dist2 (env.bounds mesh).2 (env.center mesh))) E fuel temp = some s ↔
      ∃ t, temp ≤ t ∧ t < temp + fuel ∧
        (∀ u, temp ≤ u → u < t → realCount env eff cov dir (cutAt env mesh dir E u) < E) ∧
        E ≤ realCount env eff cov dir (cutAt env mesh dir E t) ∧ s = cutAt env mesh dir E t := by
  induction fuel generalizing temp with
  | zero =>
    simp only [cutMeshLoop, add_zero]
    constructor
    · intro h; cases h
    · rintro ⟨t, h1, h2, _⟩; omega
  | succ fuel ih =>
    rw [cutMeshLoop]
    by_cases hlt : realCount env eff cov dir (cutAt env mesh dir E temp) < E
    · have hlt' := hlt
      unfold realCount cutAt at hlt'
      simp only [hlt', if_true]
      rw [ih (temp + 1)]
      constructor
      · rintro ⟨t, h1, h2, h3, h4, h5⟩
        refine ⟨t, by omega, by omega, ?_, h4, h5⟩
        intro u hu1 hu2
        rcases Nat.eq_or_lt_of_le hu1 with h | h
        · subst h; exact hlt
        · exact h3 u h hu2
      · rintro ⟨t, h1, h2, h3, h4, h5⟩
        have hne : t ≠ temp := by
          intro h
          subst h
          omega
        refine ⟨t, by omega, by omega, ?_, h4, h5⟩
        intro u hu1 hu2
        exact h3 u (by omega) hu2
    · have hlt' := hlt
      unfold realCount cutAt at hlt'
      simp only [hlt', if_false]
      constructor
      · intro h
        have hs : s = cutAt env mesh dir E temp := by
          unfold cutAt
          exact (Option.some.inj h).symm
        refine ⟨temp, le_refl _, by omega, ?_, by omega, hs⟩
        intro u hu1 hu2
        omega
      · rintro ⟨t, h1, h2, h3, h4, h5⟩
        have : t = temp := by
          by_contra hne
          exact hlt (h3 temp (le_refl _) (by omega))
        subst this
        rw [h5]
        rfl

/-- Characterisation of the calls of `cutMesh` that return. -/
theorem cutMesh_eq_some_iff (env : Env K) (eff cov : K) (fuel : Nat) (mesh : PolyData K)
    (dir : NVec K) (E : Nat) (s0 s : Stripper K) :
    cutMesh env eff cov fuel mesh dir E s0 = some s ↔
      (E = 0 ∧ s = s0) ∨
      (0 < E ∧ ∃ t, t < fuel ∧
        (∀ u, u < t → realCount env eff cov dir (cutAt env mesh dir E u) < E) ∧
        E ≤ realCount env eff cov dir (cutAt env mesh dir E t) ∧ s = cutAt env mesh dir E t) := by
  unfold cutMesh
  by_cases hE : 0 < E
  · simp only [hE, if_true]
    rw [cutMeshLoop_eq_some_iff]
    constructor
    · rintro ⟨t, _, h2, h3, h4, h5⟩
      exact Or.inr ⟨trivial, t, by omega, fun u hu => h3 u (Nat.zero_le _) hu, h4, h5⟩
    · rintro (⟨h, _⟩ | ⟨_, t, h2, h3, h4, h5⟩)
      · omega
      · exact ⟨t, Nat.zero_le _, by omega, fun u _ hu => h3 u hu, h4, h5⟩
  · have h0 : E = 0 := by omega
    simp only [hE, if_false]
    constructor
    · intro h
      exact Or.inl ⟨h0, (Option.some.inj h).symm⟩
    · rintro (⟨_, h⟩ | ⟨h, _⟩)
      · rw [h]
      · exact h.elim

end Slicer

/-! ## The planner appends poses and colour flags together -/

section Extends

variable {K : Type}

theorem Traj.Extends.refl (t : Traj K) : t.Extends t :=
  ⟨[], [], by simp, by simp, rfl⟩

theorem Traj.Extends.trans {a b c : Traj K} (h1 : a.Extends b) (h2 : b.Extends c) :
    a.Extends c := by
  obtain ⟨w1, c1, hw1, hc1, hl1⟩ := h1
  obtain ⟨w2, c2, hw2, hc2, hl2⟩ := h2
  refine ⟨w1 ++ w2, c1 ++ c2, ?_, ?_, ?_⟩
  · rw [hw2, hw1, List.append_assoc]
  · rw [hc2, hc1, List.append_assoc]
  · simp [hl1, hl2]

theorem Traj.extends_push (t : Traj K) (pose : Pose K) (color : Bool) :
    t.Extends (t.push pose color) :=
  ⟨[pose], [color], rfl, rfl, rfl⟩

theorem Traj.Extends.length_le {a b : Traj K} (h : a.Extends b) :
    a.way_points_vector.length ≤ b.way_points_vector.length := by
  obtain ⟨w, c, hw, _, _⟩ := h
  rw [hw, List.length_append]
  exact Nat.le_add_right _ _

theorem Traj.Extends.aligned {a b : Traj K} (h : a.Extends b)
    (ha : a.way_points_vector.length = a.color_vector.length) :
    b.way_points_vector.length = b.color_vector.length := by
  obtain ⟨w, c, hw, hc, hl⟩ := h
  rw [hw, hc, List.length_append, List.length_append, ha, hl]

theorem lastIndex_mono {a b : Traj K} (h : a.Extends b) : lastIndex a ≤ lastIndex b := by
  unfold lastIndex
  have := h.length_le
  omega

end Extends

section Planner

variable {K : Type} [LinearOrderedField K]

theorem seekLoop_bound (p : NVec K) (l : List (Vec3 K)) (i : Nat) (d : K) (idx : Nat) :
    seekLoop p l i d idx = idx ∨ (i ≤ seekLoop p l i d idx ∧ seekLoop p l i d idx < i + l.length) := by
  induction l generalizing i d idx with
  | nil => exact Or.inl rfl
  | cons q rest ih =>
    rw [seekLoop]
    cases hd : NVec.dist2 p (some q) with
    | none =>
      simp only
      rcases ih (i + 1) d idx with h | ⟨h1, h2⟩
      · exact Or.inl h
      · exact Or.inr ⟨by omega, by rw [List.length_cons]; omega⟩
    | some d' =>
      simp only
      split_ifs
      · rcases ih (i + 1) d' i with h | ⟨h1, h2⟩
        · exact Or.inr ⟨by omega, by rw [h, List.length_cons]; omega⟩
        · exact Or.inr ⟨by omega, by rw [List.length_cons]; omega⟩
      · rcases ih (i + 1) d idx with h | ⟨h1, h2⟩
        · exact Or.inl h
        · exact Or.inr ⟨by omega, by rw [List.length_cons]; omega⟩

theorem seekLoop_le_length (p : NVec K) (l : List (Vec3 K)) :
    seekLoop p l 0 DBL_MAX 0 ≤ l.length := by
  rcases seekLoop_bound p l 0 DBL_MAX 0 with h | ⟨_, h⟩
  · rw [h]; exact Nat.zero_le _
  · omega

theorem seekClosestExtricationPassPoint_le (p : NVec K) (poses : List (Pose K)) :
    seekClosestExtricationPassPoint p poses ≤ poses.length := by
  unfold seekClosestExtricationPassPoint
  have := seekLoop_le_length p (poses.map Pose.translation)
  simpa using this

theorem linePoint_extends (env : Env K) (line : Line K) (v : LineVars K) (i : Nat) :
    v.traj.Extends (linePoint env line v i).traj := by
  unfold linePoint
  simp only
  split_ifs <;>
    first
    | exact Traj.Extends.refl _
    | exact Traj.extends_push _ _ _
    | exact (Traj.extends_push _ _ _).trans (Traj.extends_push _ _ _)
    | exact ((Traj.extends_push _ _ _).trans (Traj.extends_push _ _ _)).trans
        (Traj.extends_push _ _ _)

theorem foldl_linePoint_extends (env : Env K) (line : Line K) (is : List Nat) (v : LineVars K) :
    v.traj.Extends (is.foldl (linePoint env line) v).traj := by
  induction is generalizing v with
  | nil => exact Traj.Extends.refl _
  | cons i is ih =>
    rw [List.foldl_cons]
    exact (linePoint_extends env line v i).trans (ih _)

theorem linePoses_extends (env : Env K) (line : Line K) (t : Traj K) :
    t.Extends (linePoses env line t).traj := by
  unfold linePoses
  simp only
  split_ifs
  · exact Traj.Extends.refl _
  · exact foldl_linePoint_extends env line _ _

theorem interLine_extends (dist : K) (extrication_lines : List (Line K)) (v : LineVars K)
    (t : Traj K) (h : interLine dist extrication_lines v = some t) : v.traj.Extends t := by
  unfold interLine at h
  simp only [Option.bind_eq_bind, Option.bind_eq_some] at h
  obtain ⟨i, _, closest, _, h⟩ := h
  split_ifs at h
  have h' := Option.some.inj h
  subst h'
  exact ⟨_, _, rfl, rfl, by simp⟩

theorem passLines_extends (env : Env K) (dist : K) (extrication_lines : List (Line K))
    (lines : List (Line K)) (t t' : Traj K)
    (h : passLines env dist extrication_lines lines t = some t') : t.Extends t' := by
  induction lines generalizing t with
  | nil =>
    simp only [passLines] at h
    rw [← Option.some.inj h]
    exact Traj.Extends.refl _
  | cons line rest ih =>
    cases rest with
    | nil =>
      simp only [passLines] at h
      rw [← Option.some.inj h]
      exact linePoses_extends env line t
    | cons next rest =>
      simp only [passLines, Option.bind_eq_bind, Option.bind_eq_some] at h
      obtain ⟨t1, h1, h2⟩ := h
      exact ((linePoses_extends env line t).trans (interLine_extends _ _ _ _ h1)).trans (ih _ h2)

theorem endOfPass_extends (env : Env K) (st : State K) (fuel : Nat) (pd : PolyData K) (dist : K)
    (lines : List (Line K)) (t t' : Traj K)
    (h : endOfPass env st fuel pd dist lines t = some t') :
    t.Extends t' ∧ t.way_points_vector ≠ [] := by
  unfold endOfPass at h
  simp only [Option.bind_eq_bind, Option.bind_eq_some] at h
  obtain ⟨first, _, start, _, last, _, stripper, _, back, hback, front, _, h⟩ := h
  have hne : t.way_points_vector ≠ [] := by
    intro hnil
    rw [hnil] at hback
    simp at hback
  refine ⟨?_, hne⟩
  split_ifs at h with h1 h2 h2
  · have h' := Option.some.inj h
    subst h'
    refine ⟨_, _, rfl, rfl, ?_⟩
    have := seekClosestExtricationPassPoint_le
      (NVec.sub (some start.1) (NVec.smul dist (some start.2)))
      (collectStrips stripper.lines back).2.reverse
    simp only [List.length_take, List.length_drop, List.length_replicate]
    omega
  · have h' := Option.some.inj h
    subst h'
    refine ⟨_, _, rfl, rfl, ?_⟩
    have := seekClosestExtricationPassPoint_le
      (NVec.sub (some start.1) (NVec.smul dist (some start.2)))
      (collectStrips stripper.lines back).2
    simp only [List.length_take, List.length_drop, List.length_replicate]
    omega

theorem dilationLoop_of_rejected (env : Env K) (st : State K) (fuel : Nat)
    (stack stack' : List (PolyData K × Bool))
    (hrej : firstOffsetRejected env st = true)
    (h : dilationLoop env st fuel st.grind_depth_ stack = some stack') : stack' = stack := by
  cases fuel with
  | zero => simp [dilationLoop] at h
  | succ fuel =>
    unfold firstOffsetRejected at hrej
    rw [dilationLoop] at h
    cases hd : dilatation env st st.grind_depth_ with
    | none => rw [hd] at hrej; simp at hrej
    | some d =>
      rw [hd] at hrej h
      simp only [Option.bind_eq_bind, Option.some_bind] at h
      simp only at hrej
      by_cases hflag : d.1 = true
      · simp only [hflag, if_true] at h hrej
        cases ho : defaultIntersectionOptimisation env st d.2 with
        | none => rw [ho] at hrej; simp at hrej
        | some o =>
          rw [ho] at hrej h
          simp only [Option.some_bind] at h
          simp only [Bool.not_eq_true'] at hrej
          rw [hrej] at h
          simp only [Bool.false_eq_true, if_false] at h
          exact (Option.some.inj h).symm
      · simp only [hflag, if_false] at h
        exact (Option.some.inj h).symm

variable [FloorRing K]

/-- One pass appends poses and colour flags together, leaves a trajectory
that is not empty, and pushes the index of its last pose. -/
theorem passBody_spec (env : Env K) (st : State K) (fuel n : Nat) (v v' : PassVars K)
    (h : passBody env st fuel n v = some v') :
    v.traj.Extends v'.traj ∧ v'.traj.way_points_vector ≠ [] ∧
      v'.index_vector = v.index_vector ++ [lastIndex v'.traj] := by
  unfold passBody at h
  split_ifs at h
  simp only [Option.bind_eq_bind, Option.bind_eq_some] at h
  obtain ⟨reg, _, mesh, _, l, _, t1, h1, t2, h2, h⟩ := h
  have h' := Option.some.inj h
  subst h'
  obtain ⟨he, hne⟩ := endOfPass_extends _ _ _ _ _ _ _ _ h2
  have h12 := passLines_extends _ _ _ _ _ _ h1
  refine ⟨h12.trans he, ?_, rfl⟩
  obtain ⟨w, c, hw, _, _⟩ := he
  simp only
  rw [hw]
  intro hnil
  exact hne (List.append_eq_nil.1 hnil).1

/-- The first `n` passes: the trajectory is extended and `n` indices are
pushed, in non-decreasing order, each between the index of the last pose
before and after these passes, the last of them being the index of the last
pose. -/
theorem passLoop_spec (env : Env K) (st : State K) (fuel n : Nat) (v v' : PassVars K)
    (h : passLoop env st fuel n v = some v') :
    v.traj.Extends v'.traj ∧
      ∃ L : List Int, v'.index_vector = v.index_vector ++ L ∧ L.length = n ∧
        List.Sorted (· ≤ ·) L ∧ (∀ x ∈ L, lastIndex v.traj ≤ x ∧ x ≤ lastIndex v'.traj) ∧
        (0 < n → L.getLast? = some (lastIndex v'.traj) ∧ v'.traj.way_points_vector ≠ []) := by
  induction n generalizing v' with
  | zero =>
    simp only [passLoop] at h
    rw [← Option.some.inj h]
    exact ⟨Traj.Extends.refl _, [], by simp, rfl, List.sorted_nil, by simp, by simp⟩
  | succ n ih =>
    simp only [passLoop, Option.bind_eq_bind, Option.bind_eq_some] at h
    obtain ⟨v1, h1, h2⟩ := h
    obtain ⟨he1, L, hL, hlen, hsorted, hbound, _⟩ := ih v1 h1
    obtain ⟨he2, hne, hidx⟩ := passBody_spec env st fuel n v1 v' h2
    have hm1 := lastIndex_mono he1
    have hm2 := lastIndex_mono he2
    refine ⟨he1.trans he2, L ++ [lastIndex v'.traj], ?_, ?_, ?_, ?_, ?_⟩
    · rw [hidx, hL, List.append_assoc]
    · simp [hlen]
    · unfold List.Sorted
      rw [List.pairwise_append]
      refine ⟨hsorted, List.pairwise_singleton _ _, ?_⟩
      intro a ha b hb
      rw [List.mem_singleton] at hb
      subst hb
      exact le_trans (hbound a ha).2 hm2
    · intro x hx
      rcases List.mem_append.1 hx with hx | hx
      · exact ⟨(hbound x hx).1, le_trans (hbound x hx).2 hm2⟩
      · rw [List.mem_singleton] at hx
        subst hx
        exact ⟨le_trans hm1 hm2, le_refl _⟩
    · intro _
      exact ⟨by simp, hne⟩

theorem generateTrajectory_eq_some (env : Env K) (fuel : Nat) (st : State K) (idx : List Int)
    (st' : State K) (traj : Traj K) (idx' : List Int)
    (h : generateTrajectory env fuel st idx = some (st', traj, idx')) :
    buildPasses env st fuel = some st' ∧
      ∃ v, passLoop env st' fuel st'.dilationPolyDataVector_.length (initialVars idx) = some v ∧
        v.traj = traj ∧ v.index_vector = idx' := by
  unfold generateTrajectory at h
  simp only [Option.bind_eq_bind, Option.bind_eq_some] at h
  obtain ⟨s, hs, v, hv, h⟩ := h
  have h' := Option.some.inj h
  simp only [Prod.mk.injEq] at h'
  obtain ⟨h1, h2, h3⟩ := h'
  subst h1
  exact ⟨hs, v, hv, h2, h3⟩

theorem passLoop_initial (env : Env K) (st : State K) (fuel n : Nat) (v v' : PassVars K)
    (h : passLoop env st fuel n v = some v') (m : Nat) (hm : m ≤ n) :
    ∃ vm, passLoop env st fuel m v = some vm ∧ vm.traj.Extends v'.traj ∧
      ∃ R : List Int, v'.index_vector = vm.index_vector ++ R := by
  induction n generalizing v' with
  | zero =>
    have : m = 0 := by omega
    subst this
    exact ⟨v', h, Traj.Extends.refl _, [], by simp⟩
  | succ n ih =>
    rcases Nat.eq_or_lt_of_le hm with heq | hlt
    · subst heq
      exact ⟨v', h, Traj.Extends.refl _, [], by simp⟩
    · simp only [passLoop, Option.bind_eq_bind, Option.bind_eq_some] at h
      obtain ⟨v1, h1, h2⟩ := h
      obtain ⟨vm, hvm, hext, R, hR⟩ := ih v1 h1 (by omega)
      obtain ⟨he2, _, hidx⟩ := passBody_spec env st fuel n v1 v' h2
      exact ⟨vm, hvm, hext.trans he2, R ++ [lastIndex v'.traj], by
        rw [hidx, hR, List.append_assoc]⟩

end Planner

end Bezier


namespace Bezier

/-! ## Runs in the plate world -/

theorem plateObject_run :
    (generateTrajectory plateEnv 10 plateObject []).map summary =
      some (2, 30, 30, [-1, 14, 29]) := by decide!

theorem sliverObject_run :
    (generateTrajectory plateEnv 10 sliverObject []).map summary =
      some (2, 15, 15, [-1, 14, 14]) := by decide!

theorem lowDefaultObject_run :
    (generateTrajectory plateEnv 10 lowDefaultObject []).map summary =
      some (1, 15, 15, [-1, 14]) := by decide!

theorem lowDefaultObject_rejected :
    firstOffsetRejected plateEnv (setUp plateEnv lowDefaultObject) = true := by decide!

theorem plateObject_second_run :
    ((generateTrajectory plateEnv 10 plateObject []).bind fun r =>
      (generateTrajectory plateEnv 10 r.1 []).map fun r' =>
        (summary r', decide (r.1.inputPolyData_ = plateObject.inputPolyData_),
          decide (r.1.defaultPolyData_ = plateObject.defaultPolyData_))) =
      some ((4, 60, 60, [-1, 14, 29, 44, 59]), true, true) := by decide!

theorem exists_of_map_eq_some {α β : Type} {o : Option α} {f : α → β} {b : β}
    (h : o.map f = some b) : ∃ a, o = some a ∧ f a = b := by
  cases o with
  | none => simp at h
  | some a => exact ⟨a, rfl, by simpa using h⟩

theorem gapPlate_cut :
    (cutMesh plateEnv 4 (1 / 2) 10 (plateMesh 0 8 [2, 3]) (some ⟨1, 0, 0⟩) 3 Stripper.empty).map
      (realCount plateEnv 4 (1 / 2) (some ⟨1, 0, 0⟩)) = some 4 := by decide!

theorem emptyMesh_cut_three :
    cutMesh plateEnv 4 (1 / 2) 3 PolyData.empty (some ⟨1, 0, 0⟩) 1 Stripper.empty = none := by
  decide!

theorem plateCutter_empty (origin : Vec3 ℚ) (normal : NVec ℚ) (n : Nat) (lo hi : ℚ) :
    plateCutter PolyData.empty origin normal n lo hi = ⟨true, []⟩ := by
  simp [plateCutter, PolyData.empty]

theorem emptyMesh_cutLoop (dir : NVec ℚ) (a b : ℚ) (fuel temp : Nat) :
    cutMeshLoop plateEnv 4 (1 / 2) PolyData.empty dir a b 1 fuel temp = none := by
  induction fuel generalizing temp with
  | zero => rfl
  | succ fuel ih =>
    rw [cutMeshLoop]
    have hc : plateEnv.cutter = plateCutter := rfl
    rw [hc, plateCutter_empty]
    have h0 : getRealSliceNumber (4 : ℚ) (1 / 2) ⟨true, []⟩ dir = 0 := by
      cases dir <;> simp [getRealSliceNumber]
    rw [h0]
    simp only [Nat.lt_one_iff, if_true]
    exact ih (temp + 1)

end Bezier


namespace Bezier

/-! ## Claims on `generateTrajectory` -/

section PlannerClaims

variable {K : Type} [LinearOrderedField K] [FloorRing K]

/-- C1: for every call of `generateTrajectory` that returns, the pose vector
and the colour vector have the same length, whatever the lines, the
extrication lines and the nearest indices met during the call. -/
theorem generateTrajectory_same_length (env : Env K) (fuel : Nat) (st : State K)
    (idx : List Int) (st' : State K) (traj : Traj K) (idx' : List Int)
    (h : generateTrajectory env fuel st idx = some (st', traj, idx')) :
    traj.way_points_vector.length = traj.color_vector.length := by
  obtain ⟨_, v, hv, htraj, _⟩ := generateTrajectory_eq_some env fuel st idx st' traj idx' h
  obtain ⟨hext, _⟩ := passLoop_spec env st' fuel _ _ v hv
  rw [← htraj]
  exact hext.aligned rfl

/-- Witness for C1: the call on the plate object returns 30 poses and 30
colour flags. -/
theorem generateTrajectory_same_length_witness :
    ∃ r, generateTrajectory plateEnv 10 plateObject [] = some r ∧
      r.2.1.way_points_vector.length = 30 ∧
      r.2.1.way_points_vector.length = r.2.1.color_vector.length := by
  obtain ⟨⟨st', traj, idx'⟩, hr, hs⟩ := exists_of_map_eq_some plateObject_run
  simp only [summary, Prod.mk.injEq] at hs
  exact ⟨_, hr, hs.2.1, generateTrajectory_same_length plateEnv 10 plateObject [] st' traj idx' hr⟩

/-- C2 fails as stated: on the sliver object the call returns the index
vector `[-1, 14, 14]`, which is not strictly increasing (the pass over the
input mesh appends no pose). -/
theorem passEndIndex_not_strictly_increasing :
    ∃ r, generateTrajectory plateEnv 10 sliverObject [] = some r ∧
      r.2.2 = [-1, 14, 14] ∧ ¬ List.Sorted (· < ·) r.2.2 := by
  obtain ⟨r, hr, hs⟩ := exists_of_map_eq_some sliverObject_run
  simp only [summary, Prod.mk.injEq] at hs
  refine ⟨r, hr, hs.2.2.2, ?_⟩
  rw [hs.2.2.2]
  decide

/-- C2 as amended: when a call given an empty index vector returns, the
index vector is non-decreasing and its last entry is the number of poses
minus one. -/
theorem generateTrajectory_index_sorted (env : Env K) (fuel : Nat) (st : State K)
    (st' : State K) (traj : Traj K) (idx' : List Int)
    (h : generateTrajectory env fuel st [] = some (st', traj, idx')) :
    List.Sorted (· ≤ ·) idx' ∧
      idx'.getLast? = some ((traj.way_points_vector.length : Int) - 1) := by
  obtain ⟨_, v, hv, htraj, hidx⟩ := generateTrajectory_eq_some env fuel st [] st' traj idx' h
  obtain ⟨_, L, hL, _, hsorted, hbound, hlast⟩ := passLoop_spec env st' fuel _ _ v hv
  rw [← hidx, ← htraj, hL]
  simp only [initialVars, List.nil_append, List.singleton_append]
  constructor
  · unfold List.Sorted
    rw [List.pairwise_cons]
    exact ⟨fun x hx => (hbound x hx).1, hsorted⟩
  · cases hn : st'.dilationPolyDataVector_.length with
    | zero =>
      have hnil : L = [] := by
        apply List.eq_nil_of_length_eq_zero
        omega
      have hv0 : v = initialVars [] := by
        rw [hn] at hv
        simp only [passLoop] at hv
        exact (Option.some.inj hv).symm
      rw [hnil, hv0]
      rfl
    | succ n =>
      obtain ⟨hl, _⟩ := hlast (by omega)
      cases L with
      | nil => simp at hl
      | cons a L' =>
        rw [List.getLast?_cons_cons, hl]
        rfl

/-- Witness for the amended C2, on the sliver object. -/
theorem generateTrajectory_index_sorted_witness :
    ∃ r, generateTrajectory plateEnv 10 sliverObject [] = some r ∧
      List.Sorted (· ≤ ·) r.2.2 ∧
      r.2.2.getLast? = some ((r.2.1.way_points_vector.length : Int) - 1) := by
  obtain ⟨⟨st', traj, idx'⟩, hr, _⟩ := exists_of_map_eq_some sliverObject_run
  exact ⟨_, hr, generateTrajectory_index_sorted plateEnv 10 sliverObject st' traj idx' hr⟩

/-- C3 fails as stated: on the plate object the call plans 2 passes and
returns the 3 entries `[-1, 14, 29]`. -/
theorem passEndIndex_has_extra_entry :
    ∃ r, generateTrajectory plateEnv 10 plateObject [] = some r ∧
      r.1.dilationPolyDataVector_.length = 2 ∧ r.2.2 = [-1, 14, 29] ∧
      r.2.2.length ≠ r.1.dilationPolyDataVector_.length := by
  obtain ⟨r, hr, hs⟩ := exists_of_map_eq_some plateObject_run
  simp only [summary, Prod.mk.injEq] at hs
  refine ⟨r, hr, hs.1, hs.2.2.2, ?_⟩
  rw [hs.2.2.2, hs.1]
  decide

/-- C3 as amended: when a call given an empty index vector returns with a
stack of `k` passes, the index vector has `k + 1` entries; the first is -1,
pushed before the first pass, and entry `i + 1` is the index of the last pose
of the trajectory as it stands after pass `i`, a non-empty prefix of the
final pose vector. -/
theorem generateTrajectory_index_entries (env : Env K) (fuel : Nat) (st : State K)
    (st' : State K) (traj : Traj K) (idx' : List Int)
    (h : generateTrajectory env fuel st [] = some (st', traj, idx')) :
    idx'.length = st'.dilationPolyDataVector_.length + 1 ∧ idx'.head? = some (-1) ∧
      ∀ i, i < st'.dilationPolyDataVector_.length →
        ∃ v, passLoop env st' fuel (i + 1) (initialVars []) = some v ∧
          v.traj.way_points_vector ≠ [] ∧
          v.traj.way_points_vector <+: traj.way_points_vector ∧
          idx'.get? (i + 1) = some ((v.traj.way_points_vector.length : Int) - 1) := by
  obtain ⟨_, v, hv, htraj, hidx⟩ := generateTrajectory_eq_some env fuel st [] st' traj idx' h
  obtain ⟨_, L, hL, hlen, _, _, _⟩ := passLoop_spec env st' fuel _ _ v hv
  refine ⟨?_, ?_, ?_⟩
  · rw [← hidx, hL]
    simp [initialVars, hlen]
  · rw [← hidx, hL]
    simp [initialVars, lastIndex]
  · intro i hi
    obtain ⟨vm, hvm, hext, R, hR⟩ := passLoop_initial env st' fuel _ _ v hv (i + 1) (by omega)
    obtain ⟨_, Lm, hLm, hlenm, _, _, hlastm⟩ := passLoop_spec env st' fuel _ _ vm hvm
    obtain ⟨hlast, hne⟩ := hlastm (by omega)
    refine ⟨vm, hvm, hne, ?_, ?_⟩
    · obtain ⟨w, _, hw, _, _⟩ := hext
      rw [← htraj, hw]
      exact List.prefix_append _ _
    · rw [← hidx, hR, hLm]
      have h1 : ((initialVars ([] : List Int) : PassVars K).index_vector ++ Lm).length = i + 2 := by
        simp [initialVars, hlenm]
      rw [List.get?_eq_getElem?, List.getElem?_append_left (by omega)]
      have h2 : ((initialVars ([] : List Int) : PassVars K).index_vector ++ Lm).getLast? =
          some (lastIndex vm.traj) := by
        rw [List.getLast?_append, hlast]
        rfl
      rw [List.getLast?_eq_getElem?, h1] at h2
      exact h2

/-- Witness for the amended C3, on the plate object. -/
theorem generateTrajectory_index_entries_witness :
    ∃ r, generateTrajectory plateEnv 10 plateObject [] = some r ∧
      r.2.2.length = r.1.dilationPolyDataVector_.length + 1 ∧ r.2.2.head? = some (-1) ∧
      ∀ i, i < r.1.dilationPolyDataVector_.length →
        ∃ v, passLoop plateEnv r.1 10 (i + 1) (initialVars []) = some v ∧
          v.traj.way_points_vector ≠ [] ∧
          v.traj.way_points_vector <+: r.2.1.way_points_vector ∧
          r.2.2.get? (i + 1) = some ((v.traj.way_points_vector.length : Int) - 1) := by
  obtain ⟨⟨st', traj, idx'⟩, hr, _⟩ := exists_of_map_eq_some plateObject_run
  exact ⟨_, hr, generateTrajectory_index_entries plateEnv 10 plateObject st' traj idx' hr⟩

/-- C4 fails as stated: on the object whose default mesh is below the first
offset, the first offset is rejected, yet the call plans one pass and returns
15 poses and 15 colour flags. -/
theorem rejected_first_offset_not_empty :
    firstOffsetRejected plateEnv (setUp plateEnv lowDefaultObject) = true ∧
    ∃ r, generateTrajectory plateEnv 10 lowDefaultObject [] = some r ∧
      r.1.dilationPolyDataVector_.length = 1 ∧ r.2.1.way_points_vector.length = 15 ∧
      r.2.1.color_vector.length = 15 := by
  obtain ⟨r, hr, hs⟩ := exists_of_map_eq_some lowDefaultObject_run
  simp only [summary, Prod.mk.injEq] at hs
  exact ⟨lowDefaultObject_rejected, r, hr, hs.1, hs.2.1, hs.2.2.1⟩

/-- C4 as amended: when the first offset is rejected, a call on an object
whose pass stack is empty plans exactly one pass, over the input mesh
itself; when the call returns, the pose vector is not empty and the index
vector has received -1 and the index of the last pose. -/
theorem generateTrajectory_first_offset_rejected (env : Env K) (fuel : Nat) (st : State K)
    (idx : List Int) (st' : State K) (traj : Traj K) (idx' : List Int)
    (hfresh : st.dilationPolyDataVector_ = [])
    (hrej : firstOffsetRejected env (setUp env st) = true)
    (h : generateTrajectory env fuel st idx = some (st', traj, idx')) :
    st'.dilationPolyDataVector_ = [(env.pointNormals st.inputPolyData_, true)] ∧
      traj.way_points_vector ≠ [] ∧
      idx' = idx ++ [-1, (traj.way_points_vector.length : Int) - 1] := by
  obtain ⟨hb, v, hv, htraj, hidx⟩ := generateTrajectory_eq_some env fuel st idx st' traj idx' h
  have hstack : st'.dilationPolyDataVector_ = [(env.pointNormals st.inputPolyData_, true)] := by
    unfold buildPasses at hb
    simp only [Option.bind_eq_bind, Option.bind_eq_some] at hb
    obtain ⟨stack, hstack, hb⟩ := hb
    have := dilationLoop_of_rejected env (setUp env st) fuel _ _ hrej hstack
    rw [← Option.some.inj hb, this, hfresh]
    rfl
  rw [hstack] at hv
  simp only [List.length_singleton, passLoop, Option.bind_eq_bind, Option.some_bind] at hv
  obtain ⟨_, hne, hi⟩ := passBody_spec env st' fuel 0 _ v hv
  refine ⟨hstack, ?_, ?_⟩
  · rw [← htraj]; exact hne
  · rw [← hidx, hi, ← htraj]
    simp [initialVars, lastIndex]

/-- Witness for the amended C4, on the object whose default mesh is below
the first offset. -/
theorem generateTrajectory_first_offset_rejected_witness :
    lowDefaultObject.dilationPolyDataVector_ = [] ∧
    firstOffsetRejected plateEnv (setUp plateEnv lowDefaultObject) = true ∧
    ∃ r, generateTrajectory plateEnv 10 lowDefaultObject [] = some r ∧
      r.1.dilationPolyDataVector_ =
        [(plateEnv.pointNormals lowDefaultObject.inputPolyData_, true)] ∧
      r.2.1.way_points_vector ≠ [] ∧
      r.2.2 = [] ++ [-1, (r.2.1.way_points_vector.length : Int) - 1] := by
  obtain ⟨⟨st', traj, idx'⟩, hr, _⟩ := exists_of_map_eq_some lowDefaultObject_run
  exact ⟨rfl, lowDefaultObject_rejected, _, hr,
    generateTrajectory_first_offset_rejected plateEnv 10 lowDefaultObject [] st' traj idx' rfl
      lowDefaultObject_rejected hr⟩

/-- C5, the code at the failing input: a second call on the plate object,
with the same input mesh and default mesh and with empty output vectors,
plans 4 passes where the first call planned 2 and returns 60 poses where the
first call returned 30. -/
theorem generateTrajectory_second_call :
    ∃ r r', generateTrajectory plateEnv 10 plateObject [] = some r ∧
      generateTrajectory plateEnv 10 r.1 [] = some r' ∧
      r.1.inputPolyData_ = plateObject.inputPolyData_ ∧
      r.1.defaultPolyData_ = plateObject.defaultPolyData_ ∧
      summary r = (2, 30, 30, [-1, 14, 29]) ∧
      summary r' = (4, 60, 60, [-1, 14, 29, 44, 59]) := by
  obtain ⟨r, hr, hs⟩ := exists_of_map_eq_some plateObject_run
  have h2 := plateObject_second_run
  rw [hr, Option.some_bind] at h2
  obtain ⟨r', hr', hs'⟩ := exists_of_map_eq_some h2
  simp only [Prod.mk.injEq, decide_eq_true_eq] at hs'
  exact ⟨r, r', hr, hr', hs'.2.1, hs'.2.2, hs, hs'.1⟩

end PlannerClaims

/-! ## Claims on `cutMesh` -/

section SlicerClaims

variable {K : Type} [LinearOrderedField K]

/-- C9 fails as stated: on the plate with a gap, `cutMesh` asked for 3 lines
returns strips whose real line count is 4. -/
theorem cutMesh_real_count_exceeds :
    ∃ s, cutMesh plateEnv 4 (1 / 2) 10 (plateMesh 0 8 [2, 3]) (some ⟨1, 0, 0⟩) 3
        Stripper.empty = some s ∧
      realCount plateEnv 4 (1 / 2) (some ⟨1, 0, 0⟩) s = 4 ∧
      realCount plateEnv 4 (1 / 2) (some ⟨1, 0, 0⟩) s ≠ 3 := by
  obtain ⟨s, hs, hc⟩ := exists_of_map_eq_some gapPlate_cut
  exact ⟨s, hs, hc, by rw [hc]; decide⟩

/-- C9 as amended: whenever `cutMesh` returns, the real line count of the
strips it returns is at least the expected line count. -/
theorem cutMesh_real_count_ge (env : Env K) (eff cov : K) (fuel : Nat) (mesh : PolyData K)
    (dir : NVec K) (E : Nat) (s0 s : Stripper K)
    (h : cutMesh env eff cov fuel mesh dir E s0 = some s) :
    E ≤ realCount env eff cov dir s := by
  rcases (cutMesh_eq_some_iff env eff cov fuel mesh dir E s0 s).1 h with
    ⟨h0, _⟩ | ⟨_, t, _, _, hge, hs⟩
  · omega
  · rw [hs]; exact hge

/-- Witness for the amended C9, on the plate with a gap. -/
theorem cutMesh_real_count_ge_witness :
    ∃ s, cutMesh plateEnv 4 (1 / 2) 10 (plateMesh 0 8 [2, 3]) (some ⟨1, 0, 0⟩) 3
        Stripper.empty = some s ∧
      3 ≤ realCount plateEnv 4 (1 / 2) (some ⟨1, 0, 0⟩) s := by
  obtain ⟨s, hs, _⟩ := exists_of_map_eq_some gapPlate_cut
  exact ⟨s, hs, cutMesh_real_count_ge plateEnv 4 (1 / 2) 10 _ _ 3 Stripper.empty s hs⟩

/-- C10 fails as stated: on a mesh without cells and for one expected line,
`cutMesh` has not returned after 2 retries, and it returns for no bound on
the number of iterations. -/
theorem cutMesh_no_convergence :
    cutMesh plateEnv 4 (1 / 2) (2 * 1 + 1) PolyData.empty (some ⟨1, 0, 0⟩) 1 Stripper.empty = none ∧
    ∀ fuel, cutMesh plateEnv 4 (1 / 2) fuel PolyData.empty (some ⟨1, 0, 0⟩) 1 Stripper.empty =
      none := by
  refine ⟨emptyMesh_cut_three, ?_⟩
  intro fuel
  unfold cutMesh
  simp only [Nat.lt_one_iff, Nat.pos_of_ne_zero, if_true]
  exact emptyMesh_cutLoop _ _ _ fuel 0

/-- C10 as amended: `cutMesh` returns within a number of iterations exactly
when no line is expected or the real line count reaches the expected count
at some retry number below that number of iterations; no bound on the retry
number follows from the expected count. -/
theorem cutMesh_returns_iff (env : Env K) (eff cov : K) (fuel : Nat) (mesh : PolyData K)
    (dir : NVec K) (E : Nat) (s0 : Stripper K) :
    (cutMesh env eff cov fuel mesh dir E s0).isSome = true ↔
      E = 0 ∨ ∃ t, t < fuel ∧ E ≤ realCount env eff cov dir (cutAt env mesh dir E t) := by
  rw [Option.isSome_iff_exists]
  constructor
  · rintro ⟨s, hs⟩
    rcases (cutMesh_eq_some_iff env eff cov fuel mesh dir E s0 s).1 hs with
      ⟨h0, _⟩ | ⟨_, t, ht, _, hge, _⟩
    · exact Or.inl h0
    · exact Or.inr ⟨t, ht, hge⟩
  · rintro (h0 | ⟨t, ht, hge⟩)
    · exact ⟨s0, (cutMesh_eq_some_iff env eff cov fuel mesh dir E s0 s0).2 (Or.inl ⟨h0, rfl⟩)⟩
    · by_cases hE : E = 0
      · exact ⟨s0, (cutMesh_eq_some_iff env eff cov fuel mesh dir E s0 s0).2 (Or.inl ⟨hE, rfl⟩)⟩
      · have hex : ∃ t, E ≤ realCount env eff cov dir (cutAt env mesh dir E t) := ⟨t, hge⟩
        have hspec := Nat.find_spec hex
        have hle : Nat.find hex ≤ t := Nat.find_min' hex hge
        refine ⟨cutAt env mesh dir E (Nat.find hex),
          (cutMesh_eq_some_iff env eff cov fuel mesh dir E s0 _).2
            (Or.inr ⟨by omega, Nat.find hex, by omega, ?_, hspec, rfl⟩)⟩
        intro u hu
        exact Nat.lt_of_not_le (Nat.find_min hex hu)

end SlicerClaims

end Bezier


namespace Bezier

/-! ## Further runs in the plate world -/

theorem plate_direction : (setUp plateEnv plateObject).vector_dir_ = some ⟨1, 0, 0⟩ := by decide!

theorem plate_reference :
    NVec.normalize plateEnv.sqrt (NVec.cross (setUp plateEnv plateObject).vector_dir_
      (some (setUp plateEnv plateObject).mesh_normal_vector_)) = some ⟨0, -1, 0⟩ := by decide!

theorem plate_cut_run :
    cutMesh plateEnv (setUp plateEnv plateObject).effector_diameter_
      (setUp plateEnv plateObject).covering_ 10 (plateMesh 1 8 [])
      (setUp plateEnv plateObject).vector_dir_
      (determineSliceNumberExpected plateEnv (setUp plateEnv plateObject) (plateMesh 1 8 [])
        (setUp plateEnv plateObject).vector_dir_) Stripper.empty =
      some ⟨true, plateStrips 1⟩ := by decide!

theorem plate_bundle_run :
    generateStripperOnSurface plateEnv (setUp plateEnv plateObject) 10 (plateMesh 1 8 []) false [] =
      some (true, (plateStrips 1).map List.reverse) := by decide!

theorem sliver_bundle_run :
    (generateStripperOnSurface plateEnv (setUp plateEnv sliverObject) 10
      (plateMesh 0 (1 / 2000) []) true []).map (fun r => (r.1, r.2.map List.length)) =
      some (true, [1, 1, 1]) := by decide!

theorem twoClose_run :
    removeNearNeighborPoints plateEnv
      [[(⟨0, 0, 0⟩, ⟨0, 0, 1⟩), (⟨1 / 2000, 0, 0⟩, ⟨0, 0, 1⟩)]] =
      some [[(⟨1 / 2000, 0, 0⟩, ⟨0, 0, 1⟩)]] := by decide!

theorem garbage_run :
    (generateTrajectory garbageEnv 10 plateObject []).map summary =
      some (2, 28, 28, [-1, 13, 27]) := by decide!

theorem plate_prune_run :
    (defaultIntersectionOptimisation plateEnv plateObject (plateMesh 1 8 [])).map
      (fun r => (r.1, r.2.cells.length)) = some (true, 12) := by decide!

end Bezier


namespace Bezier

/-! ## Decimation -/

section Decimation

variable {K : Type} [LinearOrderedField K]

theorem getD_append_cons {α : Type} (pre : List α) (a : α) (suf : List α) (d : α) :
    (pre ++ a :: suf).getD pre.length d = a := by
  induction pre with
  | nil => rfl
  | cons p pre ih => simpa using ih

theorem getD_append_cons_succ {α : Type} (pre : List α) (a b : α) (suf : List α) (d : α) :
    (pre ++ a :: b :: suf).getD (pre.length + 1) d = b := by
  have := getD_append_cons (pre ++ [a]) b suf d
  simpa using this

theorem removeNearLoop_append (env : Env K) (fuel : Nat) (pre suf : Line K)
    (h : suf.length ≤ fuel) :
    removeNearLoop env fuel pre.length (pre ++ suf) = pre ++ decimate env suf := by
  induction fuel generalizing pre suf with
  | zero =>
    have : suf = [] := List.eq_nil_of_length_eq_zero (by omega)
    subst this
    simp [removeNearLoop, decimate]
  | succ fuel ih =>
    rw [removeNearLoop]
    match suf, h with
    | [], _ => simp [decimate]
    | [a], _ => simp [decimate]
    | [a, b], h =>
      have h1 : pre.length + 1 < (pre ++ [a, b]).length := by simp
      have h2 : ¬ pre.length + 2 < (pre ++ [a, b]).length := by simp
      have ha : (pre ++ [a, b]).getD pre.length (Vec3.zero, Vec3.zero) = a :=
        getD_append_cons _ _ _ _
      have hb : (pre ++ [a, b]).getD (pre.length + 1) (Vec3.zero, Vec3.zero) = b :=
        getD_append_cons_succ _ _ _ _ _
      simp only [h1, h2, if_true, if_false, ha, hb, decimate]
      split_ifs
      · have he : (pre ++ [a, b]).eraseIdx pre.length = pre ++ [b] := by
          rw [List.eraseIdx_append_of_length_le (le_refl _)]
          simp
        rw [he]
        have := ih (pre ++ [b]) [] (by simp)
        simpa [decimate] using this
      · have := ih (pre ++ [a]) [b] (by simp at h ⊢; omega)
        simpa [decimate] using this
    | a :: b :: c :: rest, h =>
      have h1 : pre.length + 1 < (pre ++ a :: b :: c :: rest).length := by simp
      have h2 : pre.length + 2 < (pre ++ a :: b :: c :: rest).length := by simp
      have ha : (pre ++ a :: b :: c :: rest).getD pre.length (Vec3.zero, Vec3.zero) = a :=
        getD_append_cons _ _ _ _
      have hb : (pre ++ a :: b :: c :: rest).getD (pre.length + 1) (Vec3.zero, Vec3.zero) = b :=
        getD_append_cons_succ _ _ _ _ _
      simp only [h1, h2, if_true, ha, hb, decimate]
      split_ifs
      · have he : (pre ++ a :: b :: c :: rest).eraseIdx (pre.length + 1) =
            (pre ++ [a]) ++ c :: rest := by
          rw [List.eraseIdx_append_of_length_le (Nat.le_succ _)]
          simp
        rw [he]
        have := ih (pre ++ [a]) (c :: rest) (by simp at h ⊢; omega)
        simpa using this
      · have := ih (pre ++ [a]) (b :: c :: rest) (by simp at h ⊢; omega)
        simpa using this

theorem removeNearLine_eq (env : Env K) (line : Line K) :
    removeNearLine env line = if line = [] then none else some (decimate env line) := by
  unfold removeNearLine
  cases line with
  | nil => simp
  | cons a rest =>
    have := removeNearLoop_append env (a :: rest).length [] (a :: rest) (le_refl _)
    simp only [List.length_nil, List.nil_append] at this
    simp only [List.length_cons, Nat.succ_ne_zero, if_false, reduceCtorEq]
    exact congrArg some this

theorem decimate_sublist (env : Env K) : ∀ line : Line K, (decimate env line).Sublist line
  | [] => by simp [decimate]
  | [a] => by simp [decimate]
  | [a, b] => by
    simp only [decimate]
    split_ifs
    · exact List.Sublist.cons _ (List.Sublist.refl _)
    · exact List.Sublist.refl _
  | a :: b :: c :: rest => by
    simp only [decimate]
    split_ifs
    · exact List.Sublist.cons₂ _ (List.Sublist.cons _ (decimate_sublist env (c :: rest)))
    · exact List.Sublist.cons₂ _ (decimate_sublist env (b :: c :: rest))

theorem decimate_ne_nil (env : Env K) : ∀ line : Line K, line ≠ [] → decimate env line ≠ []
  | [], h => absurd rfl h
  | [a], _ => by simp [decimate]
  | [a, b], _ => by
    simp only [decimate]
    split_ifs <;> simp
  | a :: b :: c :: rest, _ => by
    simp only [decimate]
    split_ifs <;> simp

theorem decimate_length_ge_two (env : Env K) (line : Line K) (h : 3 ≤ line.length) :
    2 ≤ (decimate env line).length := by
  match line, h with
  | a :: b :: c :: rest, _ =>
    simp only [decimate]
    split_ifs
    · have := decimate_ne_nil env (c :: rest) (by simp)
      have := List.length_pos.2 this
      simp only [List.length_cons]
      omega
    · have := decimate_ne_nil env (b :: c :: rest) (by simp)
      have := List.length_pos.2 this
      simp only [List.length_cons]
      omega

end Decimation

/-! ## Steps over the lines of a bundle -/

section ForLines

variable {K : Type}

theorem forLines_eq_some (step : Line K → Option (Line K)) (lines lines' : List (Line K))
    (h : forLines step lines = some lines') :
    List.Forall₂ (fun l l' => step l = some l') lines lines' := by
  induction lines generalizing lines' with
  | nil =>
    simp only [forLines] at h
    rw [← Option.some.inj h]
    exact List.Forall₂.nil
  | cons l rest ih =>
    simp only [forLines, Option.bind_eq_bind, Option.bind_eq_some] at h
    obtain ⟨l', hl, rest', hrest, h⟩ := h
    rw [← Option.some.inj h]
    exact List.Forall₂.cons hl (ih rest' hrest)

theorem forLines_of_forall (step : Line K → Option (Line K)) (f : Line K → Line K)
    (lines : List (Line K)) (h : ∀ l ∈ lines, step l = some (f l)) :
    forLines step lines = some (lines.map f) := by
  induction lines with
  | nil => rfl
  | cons l rest ih =>
    simp only [forLines, Option.bind_eq_bind]
    rw [h l (List.mem_cons_self _ _), ih (fun x hx => h x (List.mem_cons_of_mem _ hx))]
    rfl

end ForLines

section Bundle

variable {K : Type} [LinearOrderedField K]

theorem removeNearNeighborPoints_eq_some (env : Env K) (lines lines' : List (Line K))
    (h : removeNearNeighborPoints env lines = some lines') :
    List.Forall₂ (fun l l' => l ≠ [] ∧ l' = decimate env l) lines lines' := by
  have := forLines_eq_some _ _ _ h
  refine this.imp ?_
  intro l l' hl
  rw [removeNearLine_eq] at hl
  split_ifs at hl with hnil
  exact ⟨hnil, (Option.some.inj hl).symm⟩

theorem organiseLines_of_generate [FloorRing K] (env : Env K) (st : State K) (fuel : Nat)
    (mesh : PolyData K) (isInput : Bool) (lines : List (Line K)) (r : Bool × List (Line K))
    (h : generateStripperOnSurface env st fuel mesh isInput lines = some r) :
    ∃ stripper,
      cutMesh env st.effector_diameter_ st.covering_ fuel mesh st.vector_dir_
        (determineSliceNumberExpected env st mesh st.vector_dir_) Stripper.empty = some stripper ∧
      organiseLines env st isInput lines stripper = some r := by
  unfold generateStripperOnSurface at h
  simp only [Option.bind_eq_bind, Option.bind_eq_some] at h
  obtain ⟨stripper, hcut, h⟩ := h
  exact ⟨stripper, hcut, h⟩

/-! ### Orientation -/

theorem Vec3.dot_zero_right (u : Vec3 K) : Vec3.dot u Vec3.zero = 0 := by
  simp [Vec3.dot, Vec3.zero]

/-- The sign test of `checkOrientation` on the normalised chord is the sign
test on the chord, for a root that is positive on positive numbers. -/
theorem ltN_dot_normalize (sqrt : K → K) (hpos : ∀ x, 0 < x → 0 < sqrt x) (ref v : Vec3 K) :
    ltN (NVec.dot (some ref) (Vec3.normalize sqrt v)) (some 0) = decide (Vec3.dot ref v < 0) := by
  rcases (Vec3.dot_self_nonneg v).lt_or_eq with hv | hv
  · have hn : 0 < Vec3.norm sqrt v := hpos _ hv
    have hne : Vec3.norm sqrt v ≠ 0 := hn.ne'
    have hdot : Vec3.dot ref ⟨v.x / Vec3.norm sqrt v, v.y / Vec3.norm sqrt v,
        v.z / Vec3.norm sqrt v⟩ = Vec3.dot ref v / Vec3.norm sqrt v := by
      simp only [Vec3.dot]
      field_simp
    simp only [Vec3.normalize, hne, if_false, NVec.dot, ltN, hdot]
    congr 1
    rw [eq_iff_iff, div_neg_iff]
    constructor
    · rintro (⟨_, h⟩ | ⟨h, _⟩)
      · exact absurd hn (not_lt.2 h.le)
      · exact h
    · intro h
      exact Or.inr ⟨h, hn⟩
  · have hz : v = Vec3.zero := (Vec3.dot_self_eq_zero_iff v).1 hv.symm
    subst hz
    have h0 : ¬ Vec3.dot ref (Vec3.zero : Vec3 K) < 0 := by
      rw [Vec3.dot_zero_right]; exact lt_irrefl _
    simp only [h0, decide_False]
    unfold Vec3.normalize
    split_ifs
    · rfl
    · simp [NVec.dot, ltN, Vec3.dot, Vec3.zero]

theorem chord_of_head_getLast (line : Line K) (first last : Vec3 K × Vec3 K)
    (hf : line.head? = some first) (hl : line.getLast? = some last) :
    chord line = Vec3.sub last.1 first.1 := by
  simp [chord, hf, hl]

theorem orientLine_eq (env : Env K) (hpos : ∀ x, 0 < x → 0 < env.sqrt x) (ref : Vec3 K)
    (line : Line K) (hne : line ≠ []) :
    orientLine env (some ref) line = some (orientSpec ref line) := by
  obtain ⟨first, hf⟩ : ∃ first, line.head? = some first := by
    cases line with
    | nil => exact absurd rfl hne
    | cons a rest => exact ⟨a, rfl⟩
  obtain ⟨last, hl⟩ : ∃ last, line.getLast? = some last :=
    ⟨_, List.getLast?_eq_getLast line hne⟩
  unfold orientLine orientSpec
  simp only [hf, hl, Option.bind_eq_bind, Option.some_bind]
  rw [ltN_dot_normalize env.sqrt hpos, chord_of_head_getLast line first last hf hl]
  by_cases h : Vec3.dot ref (Vec3.sub last.1 first.1) < 0 <;> simp [h]

theorem chord_reverse (line : Line K) : chord line.reverse = Vec3.smul (-1) (chord line) := by
  simp only [chord, List.getLastD_eq_getLast?, List.headD_eq_head?_getD, List.getLast?_reverse,
    List.head?_reverse]
  ext <;> simp [Vec3.sub, Vec3.smul]

theorem dot_chord_orientSpec (ref : Vec3 K) (line : Line K) :
    0 ≤ Vec3.dot ref (chord (orientSpec ref line)) := by
  unfold orientSpec
  split_ifs with h
  · rw [chord_reverse]
    have : Vec3.dot ref (Vec3.smul (-1) (chord line)) = -Vec3.dot ref (chord line) := by
      simp only [Vec3.dot, Vec3.smul]; ring
    rw [this]
    linarith
  · exact not_lt.1 h

theorem orientSpec_ne_nil (ref : Vec3 K) (line : Line K) (hne : line ≠ []) :
    orientSpec ref line ≠ [] := by
  unfold orientSpec
  split_ifs
  · simpa using hne
  · exact hne

theorem mem_orientSpec (ref : Vec3 K) (line : Line K) (p : Vec3 K × Vec3 K) :
    p ∈ orientSpec ref line ↔ p ∈ line := by
  unfold orientSpec
  split_ifs
  · exact List.mem_reverse
  · exact Iff.rfl

end Bundle

/-! ## Sorted transfer along the steps of the line organiser -/

section MapKey

variable {K : Type}

end MapKey

section Sorted

variable {K : Type} [LinearOrderedField K]

end Sorted

/-! ## The erase loop of the real line count -/

section Collapse

variable {K : Type} [LinearOrderedField K]

theorem collapseFrom_sublist (value : K) (a : K) (l : List K) :
    (collapseFrom value a l).Sublist (a :: l) := by
  induction l generalizing a with
  | nil => simp [collapseFrom]
  | cons b rest ih =>
    rw [collapseFrom]
    split_ifs
    · exact (ih a).trans (List.Sublist.cons₂ _ (List.Sublist.cons _ (List.Sublist.refl _)))
    · exact List.Sublist.cons₂ _ (ih b)

theorem collapseFrom_head (value : K) (a : K) (l : List K) :
    (collapseFrom value a l).head? = some a := by
  induction l generalizing a with
  | nil => simp [collapseFrom]
  | cons b rest ih =>
    rw [collapseFrom]
    split_ifs
    · exact ih a
    · rfl

theorem collapseFrom_chain (value : K) (a : K) (l : List K) (hs : (a :: l).Sorted (· ≤ ·)) :
    List.Chain' (fun x y => value ≤ y - x) (collapseFrom value a l) := by
  induction l generalizing a with
  | nil => simp [collapseFrom]
  | cons b rest ih =>
    rw [collapseFrom]
    have hab : a ≤ b := (List.sorted_cons.1 hs).1 b (List.mem_cons_self _ _)
    split_ifs with hc
    · apply ih a
      exact hs.sublist (List.Sublist.cons₂ _ (List.Sublist.cons _ (List.Sublist.refl _)))
    · rw [List.chain'_cons']
      refine ⟨?_, ih b (List.sorted_cons.1 hs).2⟩
      intro y hy
      rw [collapseFrom_head] at hy
      have hy' : y = b := (Option.some.inj hy).symm
      subst hy'
      have habs : |a - y| = y - a := by
        rw [abs_sub_comm]
        exact abs_of_nonneg (sub_nonneg.2 hab)
      rw [habs] at hc
      exact not_lt.1 hc

theorem collapseFrom_cover (value : K) (a : K) (l : List K) (hs : (a :: l).Sorted (· ≤ ·)) :
    ∀ x ∈ a :: l, ∃ k ∈ collapseFrom value a l, k ≤ x ∧ (x = k ∨ x - k < value) := by
  induction l generalizing a with
  | nil =>
    intro x hx
    rw [List.mem_singleton] at hx
    subst hx
    exact ⟨x, by simp [collapseFrom], le_refl _, Or.inl rfl⟩
  | cons b rest ih =>
    have hab : a ≤ b := (List.sorted_cons.1 hs).1 b (List.mem_cons_self _ _)
    have hmem : a ∈ collapseFrom value a rest := by
      have := collapseFrom_head value a rest
      exact List.mem_of_mem_head? this
    intro x hx
    rw [collapseFrom]
    split_ifs with hc
    · have hs' : (a :: rest).Sorted (· ≤ ·) :=
        hs.sublist (List.Sublist.cons₂ _ (List.Sublist.cons _ (List.Sublist.refl _)))
      rcases List.mem_cons.1 hx with rfl | hx
      · exact ⟨x, hmem, le_refl _, Or.inl rfl⟩
      · rcases List.mem_cons.1 hx with rfl | hx
        · refine ⟨a, hmem, hab, Or.inr ?_⟩
          have habs : |a - x| = x - a := by
            rw [abs_sub_comm]
            exact abs_of_nonneg (sub_nonneg.2 hab)
          rw [habs] at hc
          exact hc
        · exact ih a hs' x (List.mem_cons_of_mem _ hx)
    · rcases List.mem_cons.1 hx with rfl | hx
      · exact ⟨x, List.mem_cons_self _ _, le_refl _, Or.inl rfl⟩
      · obtain ⟨k, hk, h1, h2⟩ := ih b (List.sorted_cons.1 hs).2 x hx
        exact ⟨k, List.mem_cons_of_mem _ hk, h1, h2⟩

end Collapse

/-! ## The nearest point of a point array -/

section Closest

variable {K : Type} [LinearOrderedField K]

theorem closestFrom_spec (v : Vec3 K) (l pre : List (Vec3 K)) (best : Nat) (pb : Vec3 K)
    (hb : pre.get? best = some pb) (hmin : ∀ p ∈ pre, Vec3.dist2 v pb ≤ Vec3.dist2 v p) :
    ∃ q, (pre ++ l).get? (closestFrom v l pre.length best (Vec3.dist2 v pb)) = some q ∧
      ∀ p ∈ pre ++ l, Vec3.dist2 v q ≤ Vec3.dist2 v p := by
  induction l generalizing pre best pb with
  | nil =>
    refine ⟨pb, by simpa [closestFrom] using hb, ?_⟩
    simpa using hmin
  | cons p rest ih =>
    rw [closestFrom]
    split_ifs with hlt
    · have := ih (pre ++ [p]) pre.length p (by simp) (by
        intro x hx
        rcases List.mem_append.1 hx with hx | hx
        · exact le_trans hlt.le (hmin x hx)
        · rw [List.mem_singleton] at hx
          subst hx
          exact le_refl _)
      simpa using this
    · have := ih (pre ++ [p]) best pb (by
        rw [List.get?_eq_getElem?] at hb ⊢
        rw [List.getElem?_append_left]
        · exact hb
        · exact (List.getElem?_eq_some.1 hb).1) (by
        intro x hx
        rcases List.mem_append.1 hx with hx | hx
        · exact hmin x hx
        · rw [List.mem_singleton] at hx
          subst hx
          exact not_lt.1 hlt)
      simpa using this

theorem findClosestPoint_spec (points : List (Vec3 K)) (v : Vec3 K) (i : Nat)
    (h : findClosestPoint points (some v) = some i) :
    ∃ q, points.get? i = some q ∧ ∀ p ∈ points, Vec3.dist2 v q ≤ Vec3.dist2 v p := by
  cases points with
  | nil => simp [findClosestPoint] at h
  | cons p rest =>
    simp only [findClosestPoint] at h
    have := closestFrom_spec v rest [p] 0 p rfl (by
      intro x hx
      rw [List.mem_singleton] at hx
      subst hx
      exact le_refl _)
    rw [← Option.some.inj h]
    simpa using this

theorem findClosestPoint_isSome (points : List (Vec3 K)) (q : NVec K) (h : points ≠ []) :
    ∃ i, findClosestPoint points q = some i ∧ i < points.length := by
  cases points with
  | nil => exact absurd rfl h
  | cons p rest =>
    cases q with
    | none => exact ⟨0, rfl, by simp⟩
    | some v =>
      obtain ⟨q, hq, _⟩ := findClosestPoint_spec (p :: rest) v _ rfl
      refine ⟨_, rfl, ?_⟩
      rw [List.get?_eq_getElem?] at hq
      exact (List.getElem?_eq_some.1 hq).1

end Closest

/-! ## The square root of the plate world -/

theorem natSqrtIter_pos (n : Nat) (hn : 1 ≤ n) (fuel x : Nat) (hx : 1 ≤ x) :
    1 ≤ natSqrtIter n fuel x := by
  induction fuel generalizing x with
  | zero => exact hx
  | succ fuel ih =>
    rw [natSqrtIter]
    split_ifs with hlt
    · apply ih
      rcases Nat.eq_or_lt_of_le hx with h1 | h2
      · subst h1
        simp only [Nat.div_one] at hlt
        omega
      · have : 0 ≤ n / x := Nat.zero_le _
        omega
    · exact hx

theorem ratSqrt_pos (x : ℚ) (hx : 0 < x) : 0 < ratSqrt x := by
  unfold ratSqrt natSqrt
  have hnum : 0 < x.num := Rat.num_pos.2 hx
  have h1 : 1 ≤ x.num.toNat := by omega
  have h2 : 1 ≤ x.den := x.den_pos
  have hn1 : x.num.toNat ≠ 0 := by omega
  have hn2 : x.den ≠ 0 := by omega
  simp only [hn1, hn2, if_false]
  have p1 := natSqrtIter_pos _ h1 200 _ h1
  have p2 := natSqrtIter_pos _ h2 200 _ h2
  apply div_pos
  · exact_mod_cast p1
  · exact_mod_cast p2

end Bezier


namespace Bezier

/-! ## Claims on the slicer counts -/

section CountClaims

variable {K : Type} [LinearOrderedField K]

/-- C11, the code at the failing input: for the triangle whose vertices have
the products -3, -1 and -2 with the direction, and a virtual diameter of 2,
`determineSliceNumberExpected` returns 2, where `⌈(max - min) / 2⌉` is 1: the
maximum starts at `DBL_MIN`, a positive number, and is never replaced. -/
theorem determineSliceNumberExpected_negative_products :
    determineSliceNumberExpected plateEnv plateObject negativeMesh (some ⟨1, 0, 0⟩) = 2 ∧
    expectedLineCountSpec plateObject.effector_diameter_ plateObject.covering_ negativeMesh
      ⟨1, 0, 0⟩ = 1 := by decide!

theorem midIndex_eq (n : Nat) : midIndex n = n / 2 := by
  unfold midIndex
  split_ifs <;> omega

theorem getRealSliceNumber_mid (eff cov : K) (stripper : Stripper K) (dir : Vec3 K) :
    getRealSliceNumber eff cov stripper (some dir) =
      (collapse (sliceEpsilon eff cov)
        ((stripper.lines.map fun line =>
          Vec3.dot dir (line.getD (line.length / 2) (Vec3.zero, Vec3.zero)).1).insertionSort
            (· ≤ ·))).length := by
  unfold getRealSliceNumber
  simp only [midIndex_eq]
  split_ifs with h
  · rw [List.eq_nil_of_length_eq_zero h]
    rfl
  · rfl

/-- C12: `getRealSliceNumber` returns 0 without strips; in general it returns
the length of a list `kept` drawn, in order, from the ascending sort of the
mid-point products, in which two successive values differ by at least `ε`,
and every sorted value is a kept value or lies less than `ε` above one.  The
mid-point product of a strip of `n` points is the product of the cut normal
and the point at position `⌊n / 2⌋` of the strip (the origin is read for a
strip without point, which a stripper does not return). -/
theorem getRealSliceNumber_collapsed (eff cov : K) (stripper : Stripper K) (dir : Vec3 K) :
    (stripper.lines = [] → getRealSliceNumber eff cov stripper (some dir) = 0) ∧
    ∃ sorted kept : List K,
      sorted.Perm (stripper.lines.map fun line =>
        Vec3.dot dir (line.getD (line.length / 2) (Vec3.zero, Vec3.zero)).1) ∧
      sorted.Sorted (· ≤ ·) ∧
      kept.Sublist sorted ∧
      List.Chain' (fun a b => sliceEpsilon eff cov ≤ b - a) kept ∧
      (∀ x ∈ sorted, ∃ k ∈ kept, k ≤ x ∧ (x = k ∨ x - k < sliceEpsilon eff cov)) ∧
      getRealSliceNumber eff cov stripper (some dir) = kept.length := by
  constructor
  · intro h
    simp [getRealSliceNumber, h]
  · generalize hvals : (stripper.lines.map fun line =>
      Vec3.dot dir (line.getD (line.length / 2) (Vec3.zero, Vec3.zero)).1) = vals
    have hcount := getRealSliceNumber_mid eff cov stripper dir
    rw [hvals] at hcount
    have hsorted := List.sorted_insertionSort (· ≤ ·) vals
    refine ⟨vals.insertionSort (· ≤ ·),
      collapse (sliceEpsilon eff cov) (vals.insertionSort (· ≤ ·)),
      List.perm_insertionSort _ _, hsorted, ?_, ?_, ?_, hcount⟩
    · cases hs : vals.insertionSort (· ≤ ·) with
      | nil => simp [collapse]
      | cons a rest => exact collapseFrom_sublist _ a rest
    · cases hs : vals.insertionSort (· ≤ ·) with
      | nil => simp [collapse]
      | cons a rest =>
        rw [hs] at hsorted
        exact collapseFrom_chain _ a rest hsorted
    · cases hs : vals.insertionSort (· ≤ ·) with
      | nil => simp
      | cons a rest =>
        rw [hs] at hsorted
        exact collapseFrom_cover _ a rest hsorted

end CountClaims

/-! ## Claims on the line organiser -/

section OrganiserClaims

variable {K : Type} [LinearOrderedField K]

theorem forall₂_right_mem {α β : Type} (R : α → β → Prop) (l : List α) (l' : List β)
    (h : List.Forall₂ R l l') : ∀ b ∈ l', ∃ a ∈ l, R a b := by
  induction h with
  | nil => intro b hb; simp at hb
  | cons hab _ ih =>
    intro b hb
    rcases List.mem_cons.1 hb with rfl | hb
    · exact ⟨_, List.mem_cons_self _ _, hab⟩
    · obtain ⟨a, ha, hr⟩ := ih b hb
      exact ⟨a, List.mem_cons_of_mem _ ha, hr⟩

theorem organiseLines_eq_some_true (env : Env K) (st : State K) (isInput : Bool)
    (lines : List (Line K)) (stripper : Stripper K) (lines' : List (Line K))
    (h : organiseLines env st isInput lines stripper = some (true, lines')) :
    ∃ l1 l2, checkOrientation env st l1 = some l2 ∧
      removeNearNeighborPoints env l2 = some lines' := by
  unfold organiseLines at h
  by_cases hn : (!stripper.hasNormals) = true
  · rw [if_pos hn] at h
    simp at h
  rw [if_neg hn] at h
  simp only [Option.bind_eq_bind, Option.bind_eq_some] at h
  obtain ⟨l2, h2, l3, h3, h⟩ := h
  have hl : l3 = lines' := by
    have := Option.some.inj h
    simp only [Prod.mk.injEq, true_and] at this
    exact this
  subst hl
  exact ⟨_, l2, h2, h3⟩

end OrganiserClaims

section FarStrips

end FarStrips

section SortedClaims

variable {K : Type} [LinearOrderedField K] [FloorRing K]

end SortedClaims

section DecimationClaims

variable {K : Type} [LinearOrderedField K]

/-- C14: for a finite reference `ref = normalize(sweepDir × meshNormal)` and
a square root that is positive on positive numbers, `checkOrientation` turns
a bundle of non-empty polylines into the bundle of the same polylines in the
same order, each reversed exactly when `ref · (lastPoint - firstPoint) < 0`;
afterwards `ref · (lastPoint - firstPoint) ≥ 0` for every polyline. -/
theorem checkOrientation_spec (env : Env K) (st : State K) (lines : List (Line K))
    (ref : Vec3 K) (hpos : ∀ x, 0 < x → 0 < env.sqrt x)
    (href : NVec.normalize env.sqrt (NVec.cross st.vector_dir_ (some st.mesh_normal_vector_)) =
      some ref)
    (hne : ∀ l ∈ lines, l ≠ []) :
    checkOrientation env st lines = some (lines.map (orientSpec ref)) ∧
      (lines.map (orientSpec ref)).length = lines.length ∧
      ∀ l ∈ lines.map (orientSpec ref), 0 ≤ Vec3.dot ref (chord l) := by
  refine ⟨?_, List.length_map _ _, ?_⟩
  · unfold checkOrientation
    rw [href]
    exact forLines_of_forall _ _ _ (fun l hl => orientLine_eq env hpos ref l (hne l hl))
  · intro l hl
    obtain ⟨l0, _, rfl⟩ := List.mem_map.1 hl
    exact dot_chord_orientSpec ref l0

/-- Witness for C14: the skew strips in the plate world, with reference
`(0, -1, 0)`. -/
theorem checkOrientation_spec_witness :
    (∀ x, 0 < x → 0 < plateEnv.sqrt x) ∧
    NVec.normalize plateEnv.sqrt (NVec.cross (setUp plateEnv plateObject).vector_dir_
      (some (setUp plateEnv plateObject).mesh_normal_vector_)) = some ⟨0, -1, 0⟩ ∧
    (∀ l ∈ skewStrips, l ≠ []) ∧
    checkOrientation plateEnv (setUp plateEnv plateObject) skewStrips =
      some (skewStrips.map (orientSpec ⟨0, -1, 0⟩)) ∧
    (skewStrips.map (orientSpec ⟨0, -1, 0⟩)).length = skewStrips.length ∧
    ∀ l ∈ skewStrips.map (orientSpec ⟨0, -1, 0⟩), 0 ≤ Vec3.dot ⟨0, -1, 0⟩ (chord l) := by
  have hne : ∀ l ∈ skewStrips, l ≠ [] := by decide
  exact ⟨ratSqrt_pos, plate_reference, hne,
    checkOrientation_spec plateEnv (setUp plateEnv plateObject) skewStrips ⟨0, -1, 0⟩ ratSqrt_pos
      plate_reference hne⟩

/-- C15, the code at the failing input: of the points at 0, 0.0004, 0.0008
and 1 on the `x` axis, `removeNearNeighborPoints` erases the second only, and
leaves the points at 0 and 0.0008 next to each other, closer than 1/1000. -/
theorem removeNearNeighborPoints_leaves_close_points :
    removeNearNeighborPoints plateEnv [closeRun] =
      some [[(⟨0, 0, 0⟩, ⟨0, 0, 1⟩), (⟨8 / 10000, 0, 0⟩, ⟨0, 0, 1⟩), (⟨1, 0, 0⟩, ⟨0, 0, 1⟩)]] ∧
    plateEnv.sqrt (Vec3.dist2 (⟨0, 0, 0⟩ : Vec3 ℚ) ⟨8 / 10000, 0, 0⟩) < 1 / 1000 := by decide!

/-- C16 fails as stated: a polyline of two points 1/2000 apart is reduced to
one point, and the bundle returned for the sliver input holds three
polylines of one point each. -/
theorem bundle_keeps_singletons :
    removeNearNeighborPoints plateEnv
      [[(⟨0, 0, 0⟩, ⟨0, 0, 1⟩), (⟨1 / 2000, 0, 0⟩, ⟨0, 0, 1⟩)]] =
      some [[(⟨1 / 2000, 0, 0⟩, ⟨0, 0, 1⟩)]] ∧
    (generateStripperOnSurface plateEnv (setUp plateEnv sliverObject) 10
      (plateMesh 0 (1 / 2000) []) true []).map (fun r => (r.1, r.2.map List.length)) =
      some (true, [1, 1, 1]) :=
  ⟨twoClose_run, sliver_bundle_run⟩

end DecimationClaims

section BundleClaims

variable {K : Type} [LinearOrderedField K] [FloorRing K]

/-- C16 as amended: every polyline of the bundle that
`generateStripperOnSurface` returns has at least one point; decimation leaves
at least one point of every polyline, and at least two points of a polyline
of three points or more. -/
theorem bundle_lines_nonempty (env : Env K) (st : State K) (fuel : Nat) (mesh : PolyData K)
    (isInput : Bool) (lines lines' : List (Line K))
    (h : generateStripperOnSurface env st fuel mesh isInput lines = some (true, lines')) :
    (∀ l ∈ lines', 1 ≤ l.length) ∧
    ∀ line line', removeNearLine env line = some line' →
      1 ≤ line'.length ∧ (3 ≤ line.length → 2 ≤ line'.length) := by
  have hdec : ∀ line line', removeNearLine env line = some line' →
      line ≠ [] ∧ line' = decimate env line := by
    intro line line' hl
    rw [removeNearLine_eq] at hl
    split_ifs at hl with hnil
    exact ⟨hnil, (Option.some.inj hl).symm⟩
  constructor
  · obtain ⟨stripper, _, horg⟩ := organiseLines_of_generate env st fuel mesh isInput lines _ h
    obtain ⟨l1, l2, _, h3⟩ := organiseLines_eq_some_true env st isInput lines stripper lines' horg
    have hf := removeNearNeighborPoints_eq_some env l2 lines' h3
    intro l hl
    obtain ⟨a, _, hne, rfl⟩ := forall₂_right_mem _ _ _ hf l hl
    exact List.length_pos.2 (decimate_ne_nil env a hne)
  · intro line line' hl
    obtain ⟨hne, rfl⟩ := hdec line line' hl
    exact ⟨List.length_pos.2 (decimate_ne_nil env line hne),
      fun h3 => decimate_length_ge_two env line h3⟩

/-- Witness for the amended C16: the bundle of the plate at height 1. -/
theorem bundle_lines_nonempty_witness :
    generateStripperOnSurface plateEnv (setUp plateEnv plateObject) 10 (plateMesh 1 8 []) false
      [] = some (true, (plateStrips 1).map List.reverse) ∧
    (∀ l ∈ (plateStrips 1).map List.reverse, 1 ≤ l.length) ∧
    ∀ line line', removeNearLine plateEnv line = some line' →
      1 ≤ line'.length ∧ (3 ≤ line.length → 2 ≤ line'.length) :=
  ⟨plate_bundle_run, bundle_lines_nonempty plateEnv _ 10 _ false [] _ plate_bundle_run⟩

end BundleClaims

/-! ## Claims on pruning, direction and the loop over the lines -/

section KeepCells

variable {K : Type}

theorem keepCells_eq_filter (test : List (NVec K) → Option Bool) (f : List (NVec K) → Bool)
    (h : ∀ cell, test cell = some (f cell)) (cells : List (List (NVec K))) :
    keepCells test cells = some (cells.filter f) := by
  induction cells with
  | nil => rfl
  | cons cell rest ih =>
    simp only [keepCells, h cell, ih, Option.bind_eq_bind, Option.some_bind, List.filter_cons]

end KeepCells

section PruneClaims

variable {K : Type} [LinearOrderedField K]

theorem default_lookup (default : PolyData K) (ns : List (Vec3 K))
    (hp : default.points ≠ []) (hl : ns.length = default.points.length) (pt : NVec K) :
    ∃ i q n, findClosestPoint default.points pt = some i ∧ default.points.get? i = some q ∧
      ns.get? i = some n := by
  obtain ⟨i, hi, hlt⟩ := findClosestPoint_isSome default.points pt hp
  exact ⟨i, default.points.get ⟨i, hlt⟩, ns.get ⟨i, hl ▸ hlt⟩, hi, List.get?_eq_get hlt,
    List.get?_eq_get (hl ▸ hlt)⟩

theorem cellInside_eq (env : Env K) (default : PolyData K) (ns : List (Vec3 K))
    (hp : default.points ≠ []) (hn : default.normals = some ns)
    (hl : ns.length = default.points.length) (cell : List (NVec K)) :
    cellInside env default cell = some (cell.any (insideOfDefault env default)) := by
  induction cell with
  | nil => rfl
  | cons pt rest ih =>
    obtain ⟨i, q, n, hi, hq, hnn⟩ := default_lookup default ns hp hl pt
    simp only [cellInside, hi, hq, hn, hnn, ih, Option.bind_eq_bind, Option.some_bind,
      List.any_cons]
    cases pt with
    | none => simp [insideOfDefault]
    | some v =>
      simp only [insideOfDefault, hi, hq, hn, hnn, Option.some_bind, Option.isSome_some,
        Bool.true_and, NVec.sub, NVec.normalize]
      cases ltN (some (1 / 10))
        (NVec.dot (Vec3.normalize env.sqrt n) (Vec3.normalize env.sqrt (Vec3.sub q v))) <;> simp

/-- C17: for a default mesh with at least one point and a normal for every
point, `defaultIntersectionOptimisation` returns, and the mesh it leaves
holds exactly the cells with a vertex inside, in their order, the flag being
true exactly when a cell is kept.  A vertex that is not finite is not
inside; a finite vertex `v` is inside exactly when
`normalize(n) · normalize(q - v) > 1/10` for a nearest default point `q`
and its normal `n`. -/
theorem defaultIntersectionOptimisation_spec (env : Env K) (st : State K) (mesh : PolyData K)
    (ns : List (Vec3 K)) (hp : st.defaultPolyData_.points ≠ [])
    (hn : st.defaultPolyData_.normals = some ns)
    (hl : ns.length = st.defaultPolyData_.points.length) :
    defaultIntersectionOptimisation env st mesh =
      some (decide (mesh.cells.filter
          (fun cell => cell.any (insideOfDefault env st.defaultPolyData_)) ≠ []),
        { mesh with cells := (mesh.cells.filter
          (fun cell => cell.any (insideOfDefault env st.defaultPolyData_))) }) ∧
    insideOfDefault env st.defaultPolyData_ none = false ∧
    ∀ v : Vec3 K, ∃ i q n, st.defaultPolyData_.points.get? i = some q ∧ ns.get? i = some n ∧
      (∀ p ∈ st.defaultPolyData_.points, Vec3.dist2 v q ≤ Vec3.dist2 v p) ∧
      insideOfDefault env st.defaultPolyData_ (some v) =
        ltN (some (1 / 10))
          (NVec.dot (Vec3.normalize env.sqrt n) (Vec3.normalize env.sqrt (Vec3.sub q v))) := by
  refine ⟨?_, rfl, ?_⟩
  · unfold defaultIntersectionOptimisation
    rw [keepCells_eq_filter _ _ (cellInside_eq env st.defaultPolyData_ ns hp hn hl)]
    simp only [Option.bind_eq_bind, Option.some_bind, ne_eq, List.length_eq_zero]
  · intro v
    obtain ⟨i, q, n, hi, hq, hnn⟩ := default_lookup st.defaultPolyData_ ns hp hl (some v)
    obtain ⟨q', hq', hmin⟩ := findClosestPoint_spec _ v i hi
    rw [hq] at hq'
    have hqq : q = q' := Option.some.inj hq'
    subst hqq
    refine ⟨i, q, n, hq, hnn, hmin, ?_⟩
    simp only [insideOfDefault, hi, hq, hn, hnn, Option.some_bind]

/-- Witness for C17: the dilated plate at height 1 against the default row
of `plateObject`; all 12 cells are kept. -/
theorem defaultIntersectionOptimisation_spec_witness :
    plateObject.defaultPolyData_.points ≠ [] ∧
    plateObject.defaultPolyData_.normals = some [⟨0, 0, 1⟩, ⟨0, 0, 1⟩, ⟨0, 0, 1⟩] ∧
    ([⟨0, 0, 1⟩, ⟨0, 0, 1⟩, ⟨0, 0, 1⟩] : List (Vec3 ℚ)).length =
      plateObject.defaultPolyData_.points.length ∧
    (defaultIntersectionOptimisation plateEnv plateObject (plateMesh 1 8 [])).map
      (fun r => (r.1, r.2.cells.length)) = some (true, 12) ∧
    defaultIntersectionOptimisation plateEnv plateObject (plateMesh 1 8 []) =
      some (decide ((plateMesh 1 8 []).cells.filter
          (fun cell => cell.any (insideOfDefault plateEnv plateObject.defaultPolyData_)) ≠ []),
        { plateMesh 1 8 [] with cells := ((plateMesh 1 8 []).cells.filter
          (fun cell => cell.any (insideOfDefault plateEnv plateObject.defaultPolyData_))) }) :=
  ⟨by decide, rfl, rfl, plate_prune_run,
    (defaultIntersectionOptimisation_spec plateEnv plateObject (plateMesh 1 8 [])
      [⟨0, 0, 1⟩, ⟨0, 0, 1⟩, ⟨0, 0, 1⟩] (by decide) rfl rfl).1⟩

/-- C18, the code at the failing input: for the mesh normal `(0, 1, 0)` the
vector `(n.z, 0, -n.x)` is the zero vector and `generateDirection` sets the
direction to its normalisation, which is not a finite vector. -/
theorem generateDirection_degenerate : generateDirection plateEnv ⟨0, 1, 0⟩ = none := by
  decide!

end PruneClaims

section LastPoints

variable {K : Type}

theorem lastPoints_eq_some (ext : List (Line K)) (hne : ∀ l ∈ ext, l ≠ []) :
    ∃ ends, lastPoints ext = some ends ∧ ends.length = ext.length := by
  induction ext with
  | nil => exact ⟨[], rfl, rfl⟩
  | cons l rest ih =>
    obtain ⟨ends, he, hl⟩ := ih (fun x hx => hne x (List.mem_cons_of_mem _ hx))
    have hl0 : l ≠ [] := hne l (List.mem_cons_self _ _)
    obtain ⟨p, hp⟩ : ∃ p, l.getLast? = some p := ⟨_, List.getLast?_eq_getLast _ hl0⟩
    refine ⟨p.1 :: ends, ?_, by simp [hl]⟩
    simp [lastPoints, hp, he]

end LastPoints

section LineClaims

variable {K : Type} [LinearOrderedField K]

theorem seekLoop_lt_length (p : NVec K) (l : List (Vec3 K)) (h : l ≠ []) :
    seekLoop p l 0 DBL_MAX 0 < l.length := by
  have hpos : 0 < l.length := List.length_pos.2 h
  rcases seekLoop_bound p l 0 DBL_MAX 0 with h0 | ⟨_, h1⟩
  · rw [h0]; exact hpos
  · omega

theorem interLine_identity (dist : K) (ext : List (Line K)) (t : Traj K) (hext : ext ≠ [])
    (hne : ∀ l ∈ ext, l ≠ []) :
    interLine dist ext ⟨Pose.identity, Pose.identity, t⟩ = some t := by
  obtain ⟨ends, he, hl⟩ := lastPoints_eq_some ext hne
  have hends : ends ≠ [] := by
    intro h0
    rw [h0] at hl
    exact hext (List.length_eq_zero.1 hl.symm)
  have hlt := seekLoop_lt_length
    (NVec.add (some (Pose.identity : Pose K).translation)
      (NVec.smul dist (Pose.identity : Pose K).col0)) ends hends
  rw [hl] at hlt
  have hget := List.get?_eq_get hlt
  simp only [interLine, seekClosestLine, he, hget, Option.bind_eq_bind, Option.some_bind,
    lt_self_iff_false, if_false, Nat.sub_self, List.take_zero, List.map_nil, List.reverse_nil,
    List.append_nil, List.length_nil, List.replicate_zero]

/-- C19: a line with fewer than two points appends nothing.  The loop over
its points leaves the poses and colour flags as they are; the extrication
that follows it (given at least one extrication line, none of them empty)
returns and appends nothing; so the loop over the lines of a pass gives for
such a line, alone or followed by other lines, what it gives without it. -/
theorem short_line_skipped (env : Env K) (dist : K) (ext : List (Line K)) (line : Line K)
    (t : Traj K) (h : line.length < 2) (hext : ext ≠ []) (hne : ∀ l ∈ ext, l ≠ []) :
    (linePoses env line t).traj = t ∧
    interLine dist ext (linePoses env line t) = some t ∧
    passLines env dist ext [line] t = some t ∧
    ∀ next rest, passLines env dist ext (line :: next :: rest) t =
      passLines env dist ext (next :: rest) t := by
  have hv : linePoses env line t = ⟨Pose.identity, Pose.identity, t⟩ := by
    unfold linePoses
    rw [if_pos h]
  have hi := interLine_identity dist ext t hext hne
  refine ⟨by rw [hv], by rw [hv]; exact hi, by simp only [passLines, hv], ?_⟩
  intro next rest
  simp only [passLines, hv, hi, Option.bind_eq_bind, Option.some_bind]

/-- Witness for C19: a line of one point before the strips at height 3. -/
theorem short_line_skipped_witness :
    ([(⟨1 / 2, 0, 0⟩, ⟨0, 0, -1⟩)] : Line ℚ).length < 2 ∧
    (plateStrips 3).map List.reverse ≠ [] ∧
    (∀ l ∈ (plateStrips 3).map List.reverse, l ≠ []) ∧
    interLine 3 ((plateStrips 3).map List.reverse)
      (linePoses plateEnv [(⟨1 / 2, 0, 0⟩, ⟨0, 0, -1⟩)] ⟨[Pose.identity], [false]⟩) =
      some ⟨[Pose.identity], [false]⟩ := by
  have hne : ∀ l ∈ (plateStrips 3).map List.reverse, l ≠ [] := by
    simp [plateStrips]
  have hext : (plateStrips 3).map List.reverse ≠ [] := by simp [plateStrips]
  exact ⟨by decide, hext, hne,
    (short_line_skipped plateEnv 3 _ [(⟨1 / 2, 0, 0⟩, ⟨0, 0, -1⟩)] ⟨[Pose.identity], [false]⟩
      (by decide) hext hne).2.1⟩

/-- C20, the code at the failing input: the end point and end normal of a
pass are read one past the end of the last line.  With the last valid point
of that line found there, the plate gives 30 poses; with another content of
that memory, the point `(0, 100, 0)`, the same call gives 28 poses: the
return of each pass does not start from the last valid point of its last
line. -/
theorem endOfPass_reads_past_end :
    (generateTrajectory plateEnv 10 plateObject []).map summary =
      some (2, 30, 30, [-1, 14, 29]) ∧
    (generateTrajectory garbageEnv 10 plateObject []).map summary =
      some (2, 28, 28, [-1, 13, 27]) :=
  ⟨plateObject_run, garbage_run⟩

end LineClaims

end Bezier


namespace Bezier

/-! ## Runs of the regeneration of the extrication lines -/

theorem regenerate_run :
    ((buildPasses plateEnv plateObject 10).bind fun st =>
      (passLoop plateEnv st 10 1 (initialVars [])).bind fun v =>
        (regenerate plateEnv st 10 1 v).map fun r =>
          (decide (r.1 = plateMesh 2 8 []),
            decide (v.extrication_lines = (plateStrips 3).map List.reverse),
            decide (generateStripperOnSurface plateEnv st 10 r.1 false [] =
              some (true, (plateStrips 2).map List.reverse)),
            r.2.length,
            decide (∀ l ∈ (plateStrips 3).map List.reverse, l ∈ r.2))) =
      some (true, true, true, 6, true) := by decide!

end Bezier


namespace Bezier

/-! ## Claims on the return of a pass and the extrication lines -/

section CollectPoints

variable {K : Type}

theorem collectPoints_snd (strip : Line K) (a : Pose K × List (Pose K)) :
    (strip.foldl (fun (a : Pose K × List (Pose K)) (p : Vec3 K × Vec3 K) =>
        (({ a.1 with translation := p.1 } : Pose K),
          a.2 ++ [({ a.1 with translation := p.1 } : Pose K)])) a).2 =
      a.2 ++ strip.map (fun p => ({ a.1 with translation := p.1 } : Pose K)) := by
  induction strip generalizing a with
  | nil => simp
  | cons p rest ih =>
    rw [List.foldl_cons, ih]
    simp

theorem collectPoints_columns (pose : Pose K) (strip : Line K) (a : Pose K × List (Pose K))
    (h : ∃ t, a.1 = { pose with translation := t }) :
    ∃ t, (strip.foldl (fun (a : Pose K × List (Pose K)) (p : Vec3 K × Vec3 K) =>
        (({ a.1 with translation := p.1 } : Pose K),
          a.2 ++ [({ a.1 with translation := p.1 } : Pose K)])) a).1 =
      { pose with translation := t } := by
  induction strip generalizing a with
  | nil => simpa using h
  | cons p rest ih =>
    rw [List.foldl_cons]
    apply ih
    obtain ⟨t, ht⟩ := h
    exact ⟨p.1, by simp only [ht]⟩

theorem collectStrips_columns (strips : List (Line K)) (pose : Pose K) :
    ∃ t, (collectStrips strips pose).1 = { pose with translation := t } := by
  unfold collectStrips
  have key : ∀ (acc : Pose K × List (Pose K)), (∃ t, acc.1 = { pose with translation := t }) →
      ∃ t, (strips.foldl (fun acc strip =>
        if 0 < strip.length then
          strip.foldl (fun (a : Pose K × List (Pose K)) (p : Vec3 K × Vec3 K) =>
            (({ a.1 with translation := p.1 } : Pose K),
              a.2 ++ [({ a.1 with translation := p.1 } : Pose K)])) (acc.1, [])
        else acc) acc).1 = { pose with translation := t } := by
    induction strips with
    | nil => intro acc h; simpa using h
    | cons s rest ih =>
      intro acc h
      rw [List.foldl_cons]
      apply ih
      split_ifs
      · exact collectPoints_columns pose s (acc.1, []) h
      · exact h
  exact key (pose, []) ⟨pose.translation, rfl⟩

end CollectPoints

section ReturnClaims

variable {K : Type} [LinearOrderedField K]

/-- C21, the code at the failing input: whatever strips come before it, the
last strip of the family (here a strip with at least one point, `p :: rest`)
is the one whose points become the poses of the return; for a strip of three
points followed by a strip of one point, the one point is taken. -/
theorem collectStrips_takes_last (pre : List (Line K)) (p : Vec3 K × Vec3 K) (rest : Line K)
    (pose : Pose K) :
    (collectStrips (pre ++ [p :: rest]) pose).2 =
      (p :: rest).map (fun q => ({ pose with translation := q.1 } : Pose K)) ∧
    (collectStrips
      [[(⟨0, 0, 0⟩, ⟨0, 0, 1⟩), (⟨0, 1, 0⟩, ⟨0, 0, 1⟩), (⟨0, 2, 0⟩, ⟨0, 0, 1⟩)],
        [(⟨5, 5, 5⟩, ⟨0, 0, 1⟩)]] (Pose.identity : Pose K)).2 =
      [{ (Pose.identity : Pose K) with translation := ⟨5, 5, 5⟩ }] := by
  have main : ∀ (pre : List (Line K)) (p : Vec3 K × Vec3 K) (rest : Line K) (pose : Pose K),
      (collectStrips (pre ++ [p :: rest]) pose).2 =
        (p :: rest).map (fun q => ({ pose with translation := q.1 } : Pose K)) := by
    intro pre p rest pose
    obtain ⟨t, ht⟩ := collectStrips_columns pre pose
    unfold collectStrips at ht ⊢
    rw [List.foldl_append, List.foldl_cons, List.foldl_nil, if_pos (by simp), collectPoints_snd]
    simp only [ht, List.nil_append]
  exact ⟨main pre p rest pose, main [_] _ [] _⟩

/-- C22, the code at the failing input: in the plate world the first
regeneration leaves the three lines of the surface at height 3 in
`extrication_lines`; the regeneration at pass 1 builds the surface at height
2, whose slice gives three lines, and leaves six lines in
`extrication_lines`, the three lines of the earlier surface among them. -/
theorem regenerate_keeps_earlier_lines :
    ∃ st v r, buildPasses plateEnv plateObject 10 = some st ∧
      passLoop plateEnv st 10 1 (initialVars []) = some v ∧
      regenerate plateEnv st 10 1 v = some r ∧
      r.1 = plateMesh 2 8 [] ∧
      v.extrication_lines = (plateStrips 3).map List.reverse ∧
      generateStripperOnSurface plateEnv st 10 r.1 false [] =
        some (true, (plateStrips 2).map List.reverse) ∧
      r.2.length = 6 ∧ ∀ l ∈ (plateStrips 3).map List.reverse, l ∈ r.2 := by
  have h := regenerate_run
  obtain ⟨st, hst, h⟩ := Option.bind_eq_some.1 h
  obtain ⟨v, hv, h⟩ := Option.bind_eq_some.1 h
  obtain ⟨r, hr, h⟩ := exists_of_map_eq_some h
  simp only [Prod.mk.injEq, decide_eq_true_eq] at h
  exact ⟨st, v, r, hst, hv, hr, h.1, h.2.1, h.2.2.1, h.2.2.2.1, h.2.2.2.2⟩

end ReturnClaims

/-! ## Claims on the real line count and on decimation -/

section CollapseClaims

variable {K : Type} [LinearOrderedField K]

theorem collapseFrom_duplicate (value : K) (hv : 0 < value) (x : K) (b : List K) :
    ∀ (a : List K) (k : K),
      collapseFrom value k (a ++ x :: x :: b) = collapseFrom value k (a ++ x :: b)
  | [], k => by
    simp only [List.nil_append, collapseFrom, sub_self, abs_zero, hv, if_true]
    split_ifs <;> rfl
  | y :: a, k => by
    have h1 := collapseFrom_duplicate value hv x b a k
    have h2 := collapseFrom_duplicate value hv x b a y
    rw [List.cons_append, List.cons_append, collapseFrom, collapseFrom, h1, h2]

theorem collapse_duplicate (value : K) (hv : 0 < value) (x : K) (a b : List K) :
    collapse value (a ++ x :: x :: b) = collapse value (a ++ x :: b) := by
  cases a with
  | nil =>
    simp only [List.nil_append, collapse, collapseFrom, sub_self, abs_zero, hv, if_true]
  | cons y a =>
    simp only [List.cons_append, collapse]
    exact collapseFrom_duplicate value hv x b a y

theorem insertionSort_eq_of_perm (l₁ l₂ : List K) (h : l₁.Perm l₂) :
    l₁.insertionSort (· ≤ ·) = l₂.insertionSort (· ≤ ·) :=
  List.eq_of_perm_of_sorted
    (((List.perm_insertionSort _ l₁).trans h).trans (List.perm_insertionSort _ l₂).symm)
    (List.sorted_insertionSort _ l₁) (List.sorted_insertionSort _ l₂)

theorem insertionSort_duplicate (x : K) (l : List K) (hx : x ∈ l) :
    ∃ a b, l.insertionSort (· ≤ ·) = a ++ x :: b ∧
      (x :: l).insertionSort (· ≤ ·) = a ++ x :: x :: b := by
  have hmem : x ∈ l.insertionSort (· ≤ ·) := (List.perm_insertionSort _ l).mem_iff.2 hx
  obtain ⟨a, b, hab⟩ := List.append_of_mem hmem
  refine ⟨a, b, hab, ?_⟩
  have hs : (a ++ x :: b).Sorted (· ≤ ·) := hab ▸ List.sorted_insertionSort _ l
  have hs' : (a ++ x :: x :: b).Sorted (· ≤ ·) := by
    unfold List.Sorted at hs ⊢
    rw [List.pairwise_append] at hs ⊢
    obtain ⟨h1, h2, h3⟩ := hs
    refine ⟨h1, List.Pairwise.cons ?_ h2, ?_⟩
    · intro y hy
      rcases List.mem_cons.1 hy with rfl | hy
      · exact le_refl _
      · exact (List.pairwise_cons.1 h2).1 y hy
    · intro y hy z hz
      rcases List.mem_cons.1 hz with rfl | hz
      · exact h3 y hy z (List.mem_cons_self _ _)
      · exact h3 y hy z hz
  have hp : ((x :: l).insertionSort (· ≤ ·)).Perm (a ++ x :: x :: b) := by
    refine (List.perm_insertionSort _ (x :: l)).trans ?_
    have h1 : (x :: l).Perm (x :: (a ++ x :: b)) :=
      List.Perm.cons x (hab ▸ (List.perm_insertionSort _ l).symm)
    exact h1.trans List.perm_middle.symm
  exact List.eq_of_perm_of_sorted hp (List.sorted_insertionSort _ _) hs'

theorem getRealSliceNumber_eq (eff cov : K) (stripper : Stripper K) (dir : Vec3 K) :
    getRealSliceNumber eff cov stripper (some dir) =
      (collapse (sliceEpsilon eff cov)
        ((stripper.lines.map (midProjection dir)).insertionSort (· ≤ ·))).length := by
  unfold getRealSliceNumber
  simp only
  split_ifs with h
  · rw [List.length_eq_zero] at h
    have h' : stripper.lines.map (midProjection dir) = [] := h
    rw [h']
    rfl
  · rfl

theorem sliceEpsilon_pos (eff cov : K) (heff : 0 < eff) (hcov : cov < 1) :
    0 < sliceEpsilon eff cov := by
  unfold sliceEpsilon
  have : 0 < 1 - cov := sub_pos.2 hcov
  positivity

/-- C23: for a positive effector diameter and a covering below 1, a further
strip whose mid-point projection onto a finite cut normal is that of a strip
already present, put anywhere among the strips, does not change the value
of `getRealSliceNumber`; and for every cut normal the value is the same for
two strippers that hold the same strips in another order. -/
theorem getRealSliceNumber_duplicate_order (eff cov : K) (dir : Vec3 K) (stripper : Stripper K)
    (extra : Line K) (lines' : List (Line K)) (heff : 0 < eff) (hcov : cov < 1)
    (hdup : ∃ line ∈ stripper.lines, midProjection dir extra = midProjection dir line)
    (hperm : lines'.Perm (extra :: stripper.lines)) :
    getRealSliceNumber eff cov ⟨stripper.hasNormals, lines'⟩ (some dir) =
      getRealSliceNumber eff cov stripper (some dir) ∧
    ∀ (vector_dir : NVec K) (other : Stripper K), stripper.lines.Perm other.lines →
      getRealSliceNumber eff cov stripper vector_dir =
        getRealSliceNumber eff cov other vector_dir := by
  constructor
  · rw [getRealSliceNumber_eq, getRealSliceNumber_eq]
    have hmem : midProjection dir extra ∈ stripper.lines.map (midProjection dir) := by
      obtain ⟨line, hl, he⟩ := hdup
      rw [he]
      exact List.mem_map_of_mem _ hl
    obtain ⟨a, b, h1, h2⟩ := insertionSort_duplicate _ _ hmem
    have h3 : (lines'.map (midProjection dir)).insertionSort (· ≤ ·) =
        (midProjection dir extra :: stripper.lines.map (midProjection dir)).insertionSort
          (· ≤ ·) :=
      insertionSort_eq_of_perm _ _ (by simpa using hperm.map (midProjection dir))
    rw [h3, h2, h1, collapse_duplicate _ (sliceEpsilon_pos eff cov heff hcov)]
  · intro vector_dir other hp
    cases vector_dir with
    | none => exact hp.length_eq
    | some d =>
      rw [getRealSliceNumber_eq, getRealSliceNumber_eq,
        insertionSort_eq_of_perm _ _ (hp.map (midProjection d))]

/-- Witness for C23: the strips of the plate at height 1 and a further piece
at `x = 3`, put between the first and the second strip; the value is 3 with
and without it. -/
theorem getRealSliceNumber_duplicate_order_witness :
    (0 : ℚ) < 4 ∧ (1 / 2 : ℚ) < 1 ∧
    (∃ line ∈ (⟨true, plateStrips 1⟩ : Stripper ℚ).lines,
      midProjection ⟨1, 0, 0⟩ [(⟨3, 0, 1⟩, ⟨0, 0, 1⟩), (⟨3, 2, 1⟩, ⟨0, 0, 1⟩)] =
        midProjection ⟨1, 0, 0⟩ line) ∧
    getRealSliceNumber (4 : ℚ) (1 / 2) ⟨true, plateStrips 1⟩ (some ⟨1, 0, 0⟩) = 3 ∧
    getRealSliceNumber (4 : ℚ) (1 / 2)
      ⟨true, [[(⟨1 / 2, 0, 1⟩, ⟨0, 0, 1⟩), (⟨1 / 2, 8, 1⟩, ⟨0, 0, 1⟩)],
        [(⟨3, 0, 1⟩, ⟨0, 0, 1⟩), (⟨3, 2, 1⟩, ⟨0, 0, 1⟩)],
        [(⟨3, 0, 1⟩, ⟨0, 0, 1⟩), (⟨3, 8, 1⟩, ⟨0, 0, 1⟩)],
        [(⟨11 / 2, 0, 1⟩, ⟨0, 0, 1⟩), (⟨11 / 2, 8, 1⟩, ⟨0, 0, 1⟩)]]⟩ (some ⟨1, 0, 0⟩) =
      getRealSliceNumber (4 : ℚ) (1 / 2) ⟨true, plateStrips 1⟩ (some ⟨1, 0, 0⟩) := by
  have hdup : ∃ line ∈ (⟨true, plateStrips 1⟩ : Stripper ℚ).lines,
      midProjection ⟨1, 0, 0⟩ [(⟨3, 0, 1⟩, ⟨0, 0, 1⟩), (⟨3, 2, 1⟩, ⟨0, 0, 1⟩)] =
        midProjection ⟨1, 0, 0⟩ line :=
    ⟨[(⟨3, 0, 1⟩, ⟨0, 0, 1⟩), (⟨3, 8, 1⟩, ⟨0, 0, 1⟩)], by simp [plateStrips], by decide!⟩
  exact ⟨by norm_num, by norm_num, hdup, by decide!,
    (getRealSliceNumber_duplicate_order (4 : ℚ) (1 / 2) ⟨1, 0, 0⟩ ⟨true, plateStrips 1⟩
      [(⟨3, 0, 1⟩, ⟨0, 0, 1⟩), (⟨3, 2, 1⟩, ⟨0, 0, 1⟩)] _ (by norm_num) (by norm_num) hdup
      (by
        simp only [plateStrips]
        exact List.Perm.swap _ _ _)).1⟩

end CollapseClaims

section LastOfCons

theorem getLast_cons_ne_nil {α : Type} (a : α) (l : List α) (h : l ≠ []) :
    (a :: l).getLast? = l.getLast? := by
  cases l with
  | nil => exact absurd rfl h
  | cons b t => exact List.getLast?_cons_cons

end LastOfCons

section SubsequenceClaims

variable {K : Type} [LinearOrderedField K]

theorem decimate_getLast_eq (env : Env K) : ∀ line : Line K,
    (decimate env line).getLast? = line.getLast?
  | [] => by simp [decimate]
  | [a] => by simp [decimate]
  | [a, b] => by
    simp only [decimate]
    split_ifs <;> simp
  | a :: b :: c :: rest => by
    have hc := decimate_getLast_eq env (c :: rest)
    have hb := decimate_getLast_eq env (b :: c :: rest)
    have hcn := decimate_ne_nil env (c :: rest) (by simp)
    have hbn := decimate_ne_nil env (b :: c :: rest) (by simp)
    simp only [decimate]
    split_ifs
    · rw [getLast_cons_ne_nil _ _ hcn, hc]
      simp [List.getLast?_cons_cons]
    · rw [getLast_cons_ne_nil _ _ hbn, hb]
      simp [List.getLast?_cons_cons]

theorem decimate_head_eq (env : Env K) (line : Line K) (h : 3 ≤ line.length) :
    (decimate env line).head? = line.head? := by
  match line, h with
  | a :: b :: c :: rest, _ =>
    simp only [decimate]
    split_ifs <;> rfl

/-- C24: for a bundle of polylines of at least three points each,
`removeNearNeighborPoints` returns, and it returns for every polyline, in the
order of the bundle, a subsequence of it with at least two points, with the
same first point and the same last point. -/
theorem removeNearNeighborPoints_subsequence (env : Env K) (lines : List (Line K))
    (h : ∀ l ∈ lines, 3 ≤ l.length) :
    ∃ lines', removeNearNeighborPoints env lines = some lines' ∧
      List.Forall₂ (fun l l' => l'.Sublist l ∧ 2 ≤ l'.length ∧ l'.head? = l.head? ∧
        l'.getLast? = l.getLast?) lines lines' := by
  refine ⟨lines.map (decimate env), ?_, ?_⟩
  · unfold removeNearNeighborPoints
    apply forLines_of_forall
    intro l hl
    rw [removeNearLine_eq, if_neg]
    intro h0
    have := h l hl
    rw [h0] at this
    simp at this
  · rw [List.forall₂_map_right_iff, List.forall₂_same]
    intro l hl
    exact ⟨decimate_sublist env l, decimate_length_ge_two env l (h l hl),
      decimate_head_eq env l (h l hl), decimate_getLast_eq env l⟩

/-- Witness for C24: the polyline with points at 0, 0.0004, 0.0008 and 1. -/
theorem removeNearNeighborPoints_subsequence_witness :
    (∀ l ∈ [closeRun], 3 ≤ l.length) ∧
    ∃ lines', removeNearNeighborPoints plateEnv [closeRun] = some lines' ∧
      List.Forall₂ (fun l l' => l'.Sublist l ∧ 2 ≤ l'.length ∧ l'.head? = l.head? ∧
        l'.getLast? = l.getLast?) [closeRun] lines' := by
  have h : ∀ l ∈ [closeRun], 3 ≤ l.length := by
    intro l hl
    rw [List.mem_singleton.1 hl]
    decide
  exact ⟨h, removeNearNeighborPoints_subsequence plateEnv [closeRun] h⟩

end SubsequenceClaims

end Bezier

